import Mathlib

/-!
Shallow embedding of the `tg_analyzer` batch-analysis pipeline
(`src/services/analyzer_service.py`, `src/services/gigachat_client.py`,
`src/models/analysis.py`) together with proofs of the frozen claims
about it.  External collaborators (file repositories, the remote
completion service, `json.loads`) are modelled as explicit oracles; the
repository's own code is translated function by function.
-/

namespace TgAnalyzer

/-! ## Python list/string primitives used by the pipeline -/

/-- Python `list(dict.fromkeys(xs))`: deduplicate a list, keeping the
first occurrence of each element and preserving order.  `seen` is the
accumulator of elements already emitted. -/
def dictFromKeysGo [DecidableEq α] (seen : List α) : List α → List α
  | [] => []
  | x :: xs =>
    if x ∈ seen then dictFromKeysGo seen xs
    else x :: dictFromKeysGo (seen ++ [x]) xs

/-- Python `list(dict.fromkeys(xs))`. -/
def dictFromKeys [DecidableEq α] (l : List α) : List α :=
  dictFromKeysGo [] l

/-- Python `range(start, stop, step)` for a positive `step` (the only
form the pipeline uses); `step = 0` raises in Python and is mapped to
`[]` here, the callers guard it away. -/
def pythonRange (start stop step : Nat) : List Nat :=
  if step = 0 then []
  else (List.range ((stop - start + step - 1) / step)).map (fun k => start + step * k)

/-- The chunking comprehension of `AnalyzerService.analyze`
(`analyzer_service.py:113`):
`[msgs[i : i + batch_size] for i in range(0, len(msgs), batch_size)]`. -/
def pythonChunks (batchSize : Nat) (msgs : List α) : List (List α) :=
  (pythonRange 0 msgs.length batchSize).map (fun i => (msgs.drop i).take batchSize)

/-- Splitting a character list on a non-overlapping separator,
left-to-right; `acc` is the current segment reversed and `fuel` bounds
the recursion (always called with more fuel than characters, so the
fuel-exhausted branch is unreachable). -/
def splitOnListGo (sep : List Char) : Nat → List Char → List Char → List (List Char)
  | _, [], acc => [acc.reverse]
  | 0, s, acc => [acc.reverse ++ s]
  | fuel + 1, c :: rest, acc =>
    if sep.isPrefixOf (c :: rest) then
      acc.reverse :: splitOnListGo sep fuel ((c :: rest).drop sep.length) []
    else
      splitOnListGo sep fuel rest (c :: acc)

/-- Python `s.split(sep)` for a non-empty separator (the separators the
pipeline uses are all non-empty literals). -/
def pySplitOn (s sep : String) : List String :=
  if sep = "" then [s]
  else (splitOnListGo sep.data (s.data.length + 1) s.data []).map String.mk

/-- Python `s.startswith(pre)`. -/
def pyStartsWith (s pre : String) : Bool :=
  pre.data.isPrefixOf s.data

/-- Python `s.strip()` restricted to ASCII whitespace. -/
def pyStrip (s : String) : String :=
  String.mk (((s.data.dropWhile Char.isWhitespace).reverse.dropWhile
    Char.isWhitespace).reverse)

/-- Python `s.lower()` restricted to ASCII letters. -/
def pyLower (s : String) : String :=
  String.mk (s.data.map Char.toLower)

/-- Python `sub in s` for strings (`str.__contains__`). -/
def pyContains (s sub : String) : Bool :=
  (pySplitOn s sub).length > 1

/-- Python `s.find(sub)`: index (in characters) of the first occurrence
of `sub` in `s`, or `-1` when absent. -/
def pyFind (s sub : String) : Int :=
  let parts := pySplitOn s sub
  if parts.length ≤ 1 then -1 else (((parts.headD "").data.length : Int))

/-- Python `s.find(sub, start)`. -/
def pyFindFrom (s sub : String) (start : Nat) : Int :=
  let r := pyFind (String.mk (s.data.drop start)) sub
  if r < 0 then -1 else r + (start : Int)

/-- Python slicing `s[a:b]` with possibly negative bounds: a negative
index is shifted by `len(s)`, then both bounds are clamped to
`[0, len(s)]`. -/
def pySlice (s : String) (a b : Int) : String :=
  let n : Int := s.data.length
  let norm : Int → Int := fun i => if i < 0 then i + n else i
  let a2 := min (max (norm a) 0) n
  let b2 := min (max (norm b) 0) n
  String.mk ((s.data.take b2.toNat).drop a2.toNat)

/-- Python `s.lstrip("@")`: remove every leading `'@'`
(`analyzer_service.py:99`). -/
def pyLstripAt (s : String) : String :=
  String.mk (s.data.dropWhile (fun c => c = '@'))

/-- Decimal-digit parse of a character list: `some n` iff the list is
non-empty and all digits. -/
def pyDigitsToNat? (cs : List Char) : Option Nat :=
  if cs = [] then none
  else if cs.all Char.isDigit then
    some (cs.foldl (fun a c => a * 10 + (c.toNat - 48)) 0)
  else none

/-- Python `int(s)` on a decimal string: strip surrounding whitespace,
accept one optional sign, then decimal digits (digit-grouping
underscores are not modelled; the validated links never contain them). -/
def pythonInt? (s : String) : Option Int :=
  let t := (pyStrip s).data
  let signDigits : Int × List Char :=
    match t with
    | '-' :: rest => (-1, rest)
    | '+' :: rest => (1, rest)
    | _ => (1, t)
  match pyDigitsToNat? signDigits.2 with
  | some n => some (signDigits.1 * (n : Int))
  | none => none

/-! ## Data model (`src/models/analysis.py`, `src/models/message.py`) -/

/-- A Telegram message (`models/message.py`, class `Message`); only the
fields the analysis pipeline reads are kept (`id` for link validation,
the rest of the record is opaque to the pipeline). -/
structure Message where
  id : Int
  sender_id : Int := 0
  text : Option String := none
deriving DecidableEq, Repr, Inhabited

/-- Model `models/message.py`, class `SourceInfo` (fields used by the
pipeline). -/
structure SourceInfo where
  id : String
  title : String
deriving DecidableEq, Repr, Inhabited

/-- Model `models/message.py`, class `MessageDump` restricted to the fields
the analyzer reads. -/
structure MessageDump where
  source_info : SourceInfo
  messages : List Message
deriving DecidableEq, Repr, Inhabited

/-- The `expert_comment` payload of a discussion: the
`ExpertComment | str` union of `models/analysis.py:39` — a structured
record, a legacy free-text string, or a JSON value fitting neither
branch (e.g. an object missing the required `problem_analysis`), which
pydantic rejects. -/
inductive ExpertPayload
  | structured (problem_analysis : String)
      (common_mistakes best_practices actionable_insights learning_resources :
        List String)
  | legacyText (text : String)
  | malformed (raw : String)
deriving DecidableEq, Repr, Inhabited

/-- Whether an `expert_comment` payload passes the
`ExpertComment | str` union validation. -/
def ExpertPayload.pydOk : ExpertPayload → Bool
  | .malformed _ => false
  | _ => true

/-- One raw discussion record as produced by a model reply and consumed
by `AnalyzerService._merge_discussions`: a JSON object whose fields are
read with `dict.get` and the defaults of `analyzer_service.py:351-361`.
The record type materialises those defaults, so every field is present
(`topic` and `summary`, required by pydantic, are therefore always
present in this embedding). -/
structure RawDiscussion where
  topic : String
  keywords : List String := []
  participants : List String := []
  summary : String := ""
  expert_comment : ExpertPayload := .legacyText ""
  message_links : List String := []
  complexity : Int := 2
  sentiment : String := "neutral"
  practical_value : Int := 5
deriving DecidableEq, Repr, Inhabited

/-- Pydantic model `Discussion` (`models/analysis.py:28`), with the
extra metric fields and their declared defaults. -/
structure Discussion where
  topic : String
  keywords : List String := []
  participants : List String := []
  summary : String := ""
  expert_comment : ExpertPayload := .legacyText ""
  message_links : List String := []
  priority : String := "medium"
  participant_count : Int := 0
  message_count : Int := 0
  complexity : Int := 3
  sentiment : String := "neutral"
  practical_value : Int := 5
deriving DecidableEq, Repr, Inhabited

/-- The `participants` field validator of `Discussion`
(`models/analysis.py:72`): a single comma-joined string is split into
trimmed parts. -/
def validateParticipants (v : List String) : List String :=
  match v with
  | [p] => if pyContains p "," then (pySplitOn p ",").map pyStrip else [p]
  | _ => v

/-- Pydantic coercion of a raw discussion dict into a `Discussion`
object, as performed by `AnalysisResult(discussions=...)`: the common
fields are copied (through the `participants` validator), the metric
fields take their declared defaults.  Range/literal validation is not
modelled. -/
def rawToDiscussion (r : RawDiscussion) : Discussion :=
  { topic := r.topic
    keywords := r.keywords
    participants := validateParticipants r.participants
    summary := r.summary
    expert_comment := r.expert_comment
    message_links := r.message_links
    complexity := r.complexity
    sentiment := r.sentiment
    practical_value := r.practical_value }

/-- The pydantic field validation `AnalysisResult(discussions=...)`
performs on each record (`models/analysis.py:28-70`):
`complexity` ∈ [1, 5] (`ge`/`le`), `practical_value` ∈ [1, 10], the
`sentiment` `Literal`, and the `expert_comment` `ExpertComment | str`
union.  Fields absent from the raw record (`priority`,
`participant_count`, `message_count`) take their declared, valid
defaults, so they cannot fail. -/
def pydValidB (r : RawDiscussion) : Bool :=
  decide (1 ≤ r.complexity) && decide (r.complexity ≤ 5) &&
  decide (1 ≤ r.practical_value) && decide (r.practical_value ≤ 10) &&
  (r.sentiment == "positive" || r.sentiment == "negative" ||
    r.sentiment == "neutral" || r.sentiment == "mixed") &&
  r.expert_comment.pydOk

/-! ## Merge engine (`AnalyzerService._merge_discussions`) -/

/-- Function `norm_topic` (`analyzer_service.py:333`): `(s or "").strip().lower()`. -/
def normTopic (s : String) : String :=
  pyLower (pyStrip s)

/-- The seeding branch of `_merge_discussions`
(`analyzer_service.py:349-361`): the first record seen for a key starts
the merged entry, with keywords deduplicated (first occurrence wins)
and capped to 5, participants and message links deduplicated. -/
def seedDiscussion (d : RawDiscussion) : RawDiscussion :=
  { d with
    keywords := (dictFromKeys d.keywords).take 5
    participants := dictFromKeys d.participants
    message_links := dictFromKeys d.message_links }

/-- The update branch of `_merge_discussions`
(`analyzer_service.py:362-390`): union keywords (capped to 5), union
participants and message links; when the incoming practical value is
strictly higher, take the incoming summary, expert comment and
practical value; complexity is the maximum; sentiment (and topic) keep
the existing value. -/
def mergeInto (dst src : RawDiscussion) : RawDiscussion :=
  { dst with
    keywords := (dictFromKeys (dst.keywords ++ src.keywords)).take 5
    participants := dictFromKeys (dst.participants ++ src.participants)
    message_links := dictFromKeys (dst.message_links ++ src.message_links)
    summary := if dst.practical_value < src.practical_value then src.summary else dst.summary
    expert_comment :=
      if dst.practical_value < src.practical_value then src.expert_comment else dst.expert_comment
    practical_value :=
      if dst.practical_value < src.practical_value then src.practical_value else dst.practical_value
    complexity := max dst.complexity src.complexity }

/-- Lookup in the insertion-ordered accumulator dictionary. -/
def assocFind (t : String) : List (String × RawDiscussion) → Option RawDiscussion
  | [] => none
  | (k, v) :: rest => if k = t then some v else assocFind t rest

/-- In-place update of the entry with key `t` (Python dict update:
position in insertion order is preserved). -/
def assocUpdate (t : String) (f : RawDiscussion → RawDiscussion) :
    List (String × RawDiscussion) → List (String × RawDiscussion)
  | [] => []
  | (k, v) :: rest =>
    if k = t then (k, f v) :: rest else (k, v) :: assocUpdate t f rest

/-- One iteration of the `for disc in discussions` loop of
`_merge_discussions`: empty normalized topics are skipped, a fresh key
appends a seeded entry, an existing key is merged in place. -/
def mergeStep (acc : List (String × RawDiscussion)) (disc : RawDiscussion) :
    List (String × RawDiscussion) :=
  let t := normTopic disc.topic
  if t = "" then acc
  else
    match assocFind t acc with
    | none => acc ++ [(t, seedDiscussion disc)]
    | some _ => assocUpdate t (fun dst => mergeInto dst disc) acc

/-- Method `AnalyzerService._merge_discussions` (`analyzer_service.py:319`):
fold the records into the insertion-ordered dictionary and return
`list(merged.values())`. -/
def mergeDiscussions (discussions : List RawDiscussion) : List RawDiscussion :=
  (discussions.foldl mergeStep []).map Prod.snd

/-! ## Metrics (`_calculate_priority`, `_enrich_discussions`) -/

/-- Method `AnalyzerService._calculate_priority` (`analyzer_service.py:460`). -/
def calculatePriority (participant_count message_count practical_value : Int) : String :=
  if participant_count ≥ 5 ∨ message_count ≥ 10 ∨ practical_value ≥ 8 then "high"
  else if participant_count ≥ 3 ∨ message_count ≥ 5 ∨ practical_value ≥ 5 then "medium"
  else "low"

/-- Per-discussion body of `AnalyzerService._enrich_discussions`
(`analyzer_service.py:438`), written functionally: sets
`participant_count`, `message_count` and the derived `priority`. -/
def enrichDiscussion (d : Discussion) : Discussion :=
  let pc : Int := d.participants.length
  let mc : Int := d.message_links.length
  { d with
    participant_count := pc
    message_count := mc
    priority := calculatePriority pc mc d.practical_value }

/-! ## Link validation (`AnalyzerService._validate_links`) -/

/-- The per-link body of the inner loop of `_validate_links`
(`analyzer_service.py:416-434`): at most one error per link, produced by
the first failing check. -/
def linkError (topic expectedStart : String) (message_ids : List Int) (link : String) :
    Option String :=
  if ¬ pyStartsWith link expectedStart then
    some (topic ++ ": Wrong username in link: " ++ link ++ " (expected: " ++ expectedStart ++ ")")
  else
    match pythonInt? ((pySplitOn link "/").getLastD "") with
    | none => some (topic ++ ": Invalid link format: " ++ link)
    | some msg_id =>
      if msg_id ∈ message_ids then none
      else some (topic ++ ": Message " ++ toString msg_id ++ " not in analyzed messages")

/-- Method `AnalyzerService._validate_links` (`analyzer_service.py:394`). -/
def validateLinks (discussions : List Discussion) (chat_username : String)
    (message_ids : List Int) : List String :=
  let expectedStart := "https://t.me/" ++ chat_username ++ "/"
  (discussions.map (fun discussion =>
    discussion.message_links.filterMap (linkError discussion.topic expectedStart message_ids))).flatten

/-! ## Statistics (`AnalyzerService._calculate_stats`) -/

/-- Python `collections.Counter` materialised as an association list in
first-encounter order (the iteration order of a `Counter`, which is an
insertion-ordered dict). -/
def counterList [DecidableEq α] (xs : List α) : List (α × Nat) :=
  (dictFromKeys xs).map (fun x => (x, xs.count x))

/-- Arithmetic mean (`statistics.mean`), idealised over `ℚ`. -/
def listMean (xs : List ℚ) : ℚ :=
  xs.sum / (xs.length : ℚ)

/-- Python `round` half-to-even (banker's rounding), idealised over
`ℚ`. -/
def roundHalfEven (x : ℚ) : Int :=
  let f := x.floor
  if x - (f : ℚ) < 1 / 2 then f
  else if 1 / 2 < x - (f : ℚ) then f + 1
  else if f % 2 = 0 then f else f + 1

/-- Python `round(x, 1)`. -/
def pyRound1 (x : ℚ) : ℚ :=
  (roundHalfEven (10 * x) : ℚ) / 10

/-- The statistics dictionary built by `_calculate_stats`
(`analyzer_service.py:519-529`). -/
structure DiscussionStats where
  total_discussions : Nat
  by_priority : List (String × Nat)
  by_complexity : List (String × Nat)
  by_sentiment : List (String × Nat)
  avg_participants : ℚ
  avg_messages : ℚ
  avg_complexity : ℚ
  avg_practical_value : ℚ
  top_keywords : List String
deriving DecidableEq, Repr

/-- Method `AnalyzerService._calculate_stats` (`analyzer_service.py:480`);
`none` models the empty dict returned for an empty discussion list.
`Counter.most_common(10)` is a stable sort by descending count over the
first-encounter-ordered items. -/
def calculateStats (discussions : List Discussion) : Option DiscussionStats :=
  if discussions = [] then none
  else
    let all_keywords := (discussions.map (fun d => d.keywords)).flatten
    some
      { total_discussions := discussions.length
        by_priority := counterList (discussions.map (fun d => d.priority))
        by_complexity := counterList (discussions.map (fun d => toString d.complexity))
        by_sentiment := counterList (discussions.map (fun d => d.sentiment))
        avg_participants :=
          pyRound1 (listMean (discussions.map (fun d => (d.participant_count : ℚ))))
        avg_messages := pyRound1 (listMean (discussions.map (fun d => (d.message_count : ℚ))))
        avg_complexity := pyRound1 (listMean (discussions.map (fun d => (d.complexity : ℚ))))
        avg_practical_value :=
          pyRound1 (listMean (discussions.map (fun d => (d.practical_value : ℚ))))
        top_keywords :=
          (((counterList all_keywords).mergeSort (fun a b => b.2 ≤ a.2)).take 10).map Prod.fst }

/-! ## Retry wrapper (`GigaChatClient._request_with_retry`) -/

/-- What one HTTP attempt observes: a status response together with an
optional parsed `Retry-After` header, or a network timeout
(`httpx.TimeoutException`). -/
inductive AttemptOutcome
  | status (code : Int) (retryAfterHeader : Option Int)
  | timeout
deriving DecidableEq, Repr

/-- How `_request_with_retry` terminates: success at some attempt, or
one of `GigaChatRateLimitError`, `GigaChatAPIError`,
`GigaChatTimeoutError`, or the unreachable fall-through
`GigaChatAPIError("Max retries exceeded")` for `max_retries = 0`. -/
inductive RetryOutcome
  | success (attempt : Nat)
  | rateLimitError (retryAfter : Int)
  | apiError (status : Int)
  | timeoutError
  | maxRetriesExceeded
deriving DecidableEq, Repr

/-- The retry loop of `_request_with_retry`
(`gigachat_client.py:188-248`), with the per-attempt outcomes given by
the oracle `oc`.  Returns the final outcome together with the list of
sleeps performed (`asyncio.sleep` arguments, in seconds).  `remaining`
counts the iterations left of `for attempt in range(max_retries)`; the
`attempt < max_retries - 1` test of the source is `remaining ≠ 0` after
the head iteration is peeled. -/
def retryAttempts (retryDelay : ℚ) (oc : Nat → AttemptOutcome) :
    Nat → Nat → RetryOutcome × List ℚ
  | _, 0 => (.maxRetriesExceeded, [])
  | attempt, remaining + 1 =>
    match oc attempt with
    | .status code hdr =>
      if code = 429 then
        let ra := hdr.getD 60
        if remaining = 0 then (.rateLimitError ra, [])
        else
          let rest := retryAttempts retryDelay oc (attempt + 1) remaining
          (rest.1, (ra : ℚ) :: rest.2)
      else if 500 ≤ code ∧ code < 600 then
        if remaining = 0 then (.apiError code, [])
        else
          let rest := retryAttempts retryDelay oc (attempt + 1) remaining
          (rest.1, retryDelay * 2 ^ attempt :: rest.2)
      else if 200 ≤ code ∧ code < 300 then (.success attempt, [])
      else (.apiError code, [])
    | .timeout =>
      if remaining = 0 then (.timeoutError, [])
      else
        let rest := retryAttempts retryDelay oc (attempt + 1) remaining
        (rest.1, retryDelay * 2 ^ attempt :: rest.2)

/-- Method `GigaChatClient._request_with_retry` (`gigachat_client.py:151`):
run up to `maxRetries` attempts starting at attempt `0`. -/
def requestWithRetry (maxRetries : Nat) (retryDelay : ℚ) (oc : Nat → AttemptOutcome) :
    RetryOutcome × List ℚ :=
  retryAttempts retryDelay oc 0 maxRetries

/-! ## Response extraction (`analyzer_service.py:169-176` and `:243-250`) -/

/-- The fenced-JSON extraction applied to a model reply before
`json.loads`: take the content after the first ` ```json ` fence (7
characters) up to the next ` ``` ` fence, else after the first generic
` ``` ` fence (3 characters), else the whole reply; the selected span is
stripped.  An unterminated fence gives `find = -1`, i.e. a Python slice
ending one character before the end. -/
def extractJsonBlock (response_text : String) : String :=
  if pyContains response_text "```json" then
    let json_start := pyFind response_text "```json" + 7
    let json_end := pyFindFrom response_text "```" json_start.toNat
    pyStrip (pySlice response_text json_start json_end)
  else if pyContains response_text "```" then
    let json_start := pyFind response_text "```" + 3
    let json_end := pyFindFrom response_text "```" json_start.toNat
    pyStrip (pySlice response_text json_start json_end)
  else response_text

/-! ## The orchestrator (`AnalyzerService.analyze`) -/

/-- Errors the GigaChat client can raise from `complete()`
(`core/exceptions.py`): `GigaChatAuthError`, `GigaChatAPIError`,
`GigaChatRateLimitError`, `GigaChatTimeoutError`. -/
inductive ClientError
  | authError
  | apiError (status : Int)
  | rateLimitError (retryAfter : Int)
  | timeoutError
deriving DecidableEq, Repr

/-- The outcome of one `gigachat_client.complete(...)` call: a reply
(content of `choices[0].message.content`, `usage.total_tokens`,
`model`) or a raised client error. -/
inductive CompletionOutcome
  | ok (content : String) (totalTokens : Nat) (model : String)
  | failure (e : ClientError)
deriving DecidableEq, Repr

/-- Whether a completion call returned normally. -/
def CompletionOutcome.isOk : CompletionOutcome → Bool
  | .ok _ _ _ => true
  | .failure _ => false

/-- Result of `json.loads` on a reply: `none` when it raises, otherwise
a parsed object whose `"discussions"` entry (coerced to raw records) is
`discussionsField` (`none` when the key is absent). -/
structure JsonReply where
  discussionsField : Option (List RawDiscussion)
deriving DecidableEq, Repr

/-- Observable side effects of one `analyze` run, in order.  The
constructor for a pacing sleep exists so that pacing claims can be
stated; the analyzer source performs no sleep, so the embedding never
emits it. -/
inductive TraceEvent
  | completeCall (callIndex : Nat)
  | sleepPause (seconds : ℚ)
  | mergeCall (inputCount : Nat)
  | validateCall (errorCount : Nat)
  | saveCall (chat date : String)
deriving DecidableEq, Repr

/-- Exceptions `analyze` can propagate: `DataNotFoundError` from the
message repository, an uncaught client error from a completion call, a
`json.JSONDecodeError`/`KeyError` in the legacy single-window path,
the uncaught pydantic `ValidationError` from
`AnalysisResult(discussions=...)`, and the `NameError` on
`response.model` when the batch loop ran zero times. -/
inductive AnalyzeError
  | dataNotFound
  | clientError (e : ClientError)
  | jsonDecodeError
  | keyError
  | validationError
  | nameError
deriving DecidableEq, Repr

/-- The external collaborators of one `analyze` run: the message
repository, the prompt builder, the GigaChat client (keyed by the
1-based index of the completion call, fed the built prompt), the JSON
parser, wall-clock readings, and the service's `validate_links` flag. -/
structure AnalyzeEnv where
  loadMessages : String → String → Option MessageDump
  buildPrompt : String → String → String → List Message → String
  completeCall : Nat → String → CompletionOutcome
  jsonLoads : String → Option JsonReply
  latencyOf : Nat → ℚ
  now : Nat
  validateLinksEnabled : Bool

/-- Pydantic model `AnalysisResult` (`models/analysis.py:104`). -/
structure AnalysisResult where
  discussions : List Discussion := []
deriving DecidableEq, Repr, Inhabited

/-- Constructing `AnalysisResult(discussions=rs)`
(`analyzer_service.py:192` and `:252`): pydantic validates every
record; any violation raises an (uncaught) `ValidationError`, modelled
as `none`. -/
def buildAnalysisResult? (rs : List RawDiscussion) : Option AnalysisResult :=
  if rs.all pydValidB then some ⟨rs.map rawToDiscussion⟩ else none

/-- Pydantic model `AnalysisMetadata` (`models/analysis.py:82`),
restricted to the fields the pipeline writes. -/
structure AnalysisMetadata where
  chat : String
  chat_username : String
  date : String
  analyzed_at : Nat
  total_messages : Nat
  analyzed_messages : Nat
  tokens_used : Nat
  model : String
  latency_seconds : ℚ
  discussion_stats : Option DiscussionStats
deriving DecidableEq, Repr

/-- The analysis repository store. -/
abbrev AnalysisStore := List ((String × String) × (AnalysisResult × AnalysisMetadata))

/-- Repository `analysis_repo.load` / `exists`: the stored entry for
`(chat, date)`, if any. -/
def storeFind (store : AnalysisStore) (chat date : String) :
    Option (AnalysisResult × AnalysisMetadata) :=
  match store.find? (fun e => e.1 = (chat, date)) with
  | some e => some e.2
  | none => none

/-- Repository `analysis_repo.save`: store (overwriting) the entry for
`(chat, date)`. -/
def storeSave (store : AnalysisStore) (chat date : String)
    (v : AnalysisResult × AnalysisMetadata) : AnalysisStore :=
  ((chat, date), v) :: store.filter (fun e => ¬ e.1 = (chat, date))

/-- Accumulator of the batch loop (`analyzer_service.py:115-188`). -/
structure BatchAcc where
  all_discussions : List RawDiscussion
  total_tokens : Nat
  total_latency : ℚ
  lastModel : Option String
  trace : List TraceEvent
deriving Repr

/-- The `for idx, chunk in enumerate(chunks, start=1)` loop of the
multi-batch path: build the prompt for the chunk, call the client (an
uncaught client error aborts the whole run with the trace so far),
extract and parse the reply — the `try/except` around `json.loads`
turns any parse failure into an empty batch — and accumulate. -/
def runBatches (env : AnalyzeEnv) (chat_name chat_username date : String) :
    List (List Message) → Nat → BatchAcc → Except (ClientError × List TraceEvent) BatchAcc
  | [], _, acc => .ok acc
  | chunk :: rest, idx, acc =>
    let prompt := env.buildPrompt chat_name chat_username date chunk
    let trace1 := acc.trace ++ [TraceEvent.completeCall idx]
    match env.completeCall idx prompt with
    | .failure e => .error (e, trace1)
    | .ok content tokens model =>
      let response_text := extractJsonBlock content
      let batch_discussions :=
        match env.jsonLoads response_text with
        | some reply => reply.discussionsField.getD []
        | none => []
      runBatches env chat_name chat_username date rest (idx + 1)
        { all_discussions := acc.all_discussions ++ batch_discussions
          total_tokens := acc.total_tokens + tokens
          total_latency := acc.total_latency + env.latencyOf idx
          lastModel := some model
          trace := trace1 }

/-- What one `analyze` call produces: the returned (or raised) value,
the repository store after the run, and the trace of side effects. -/
structure AnalyzeOutput where
  outcome : Except AnalyzeError (AnalysisResult × AnalysisMetadata)
  store : AnalysisStore
  trace : List TraceEvent
deriving Repr

/-- Result of one path (multi-batch or legacy) of `analyze`: either a
propagated error with the trace so far, or the pre-enrichment result
with the token/latency totals, the last response's model, and the
trace. -/
abbrev PathResult :=
  Except (AnalyzeError × List TraceEvent)
    (AnalysisResult × Nat × ℚ × Option String × List TraceEvent)

/-- The multi-batch path of `analyze` (`analyzer_service.py:106-196`):
chunk, run the batch loop, merge across batches, coerce into
`AnalysisResult`. -/
def runBatchPath (env : AnalyzeEnv) (title chat_username date : String)
    (messages : List Message) (bs : Nat) : PathResult :=
  let chunks := pythonChunks bs messages
  match runBatches env title chat_username date chunks 1 ⟨[], 0, 0, none, []⟩ with
  | .error (e, tr) => .error (.clientError e, tr)
  | .ok acc =>
    let merged := mergeDiscussions acc.all_discussions
    let tr := acc.trace ++ [TraceEvent.mergeCall acc.all_discussions.length]
    match buildAnalysisResult? merged with
    | none => .error (.validationError, tr)
    | some result0 =>
      .ok (result0, acc.total_tokens, acc.total_latency, acc.lastModel, tr)

/-- The legacy single-window path of `analyze`
(`analyzer_service.py:197-256`): one prompt over the first
`window_size` messages, one completion call, a hard (uncaught)
`json.loads` and `["discussions"]` access. -/
def runLegacy (env : AnalyzeEnv) (title chat_username date : String)
    (messages : List Message) (window_size : Nat) : PathResult :=
  let prompt := env.buildPrompt title chat_username date (messages.take window_size)
  let tr := [TraceEvent.completeCall 1]
  match env.completeCall 1 prompt with
  | .failure e => .error (.clientError e, tr)
  | .ok content tokens model =>
    match env.jsonLoads (extractJsonBlock content) with
    | none => .error (.jsonDecodeError, tr)
    | some reply =>
      match reply.discussionsField with
      | none => .error (.keyError, tr)
      | some l =>
        match buildAnalysisResult? l with
        | none => .error (.validationError, tr)
        | some result0 =>
          .ok (result0, tokens, env.latencyOf 1, some model, tr)

/-- Steps 4.5-6 of `analyze`, shared by both paths
(`analyzer_service.py:258-317`): enrich in place, validate links
(advisory), read `response.model` (a `NameError` when no call was
made), build the metadata — with `total_messages` and
`analyzed_messages` both `len(messages)` — compute stats, save and
return. -/
def finishAnalyze (env : AnalyzeEnv) (store : AnalysisStore)
    (chat date chat_username : String) (messages : List Message)
    (pathResult : PathResult) : AnalyzeOutput :=
  match pathResult with
  | .error (e, tr) => ⟨.error e, store, tr⟩
  | .ok (result0, tokens, latency, lastModel, tr) =>
    let result : AnalysisResult := ⟨result0.discussions.map enrichDiscussion⟩
    let tr2 :=
      if env.validateLinksEnabled then
        tr ++ [TraceEvent.validateCall
          (validateLinks result.discussions chat_username
            (messages.map (fun m => m.id))).length]
      else tr
    match lastModel with
    | none => ⟨.error .nameError, store, tr2⟩
    | some model =>
      let stats := calculateStats result.discussions
      let metadata : AnalysisMetadata :=
        { chat := chat
          chat_username := chat_username
          date := date
          analyzed_at := env.now
          total_messages := messages.length
          analyzed_messages := messages.length
          tokens_used := tokens
          model := model
          latency_seconds := latency
          discussion_stats := stats }
      ⟨.ok (result, metadata), storeSave store chat date (result, metadata),
        tr2 ++ [TraceEvent.saveCall chat date]⟩

/-- The `if batch_size:` dispatch of `analyze`
(`analyzer_service.py:106` / `:197`): the multi-batch path when
`batch_size` is truthy (Python: not `None` and not `0`), else the
legacy single-window path. -/
def selectPath (env : AnalyzeEnv) (title chat_username date : String)
    (messages : List Message) (window_size : Nat) (batch_size : Option Nat) :
    PathResult :=
  let batchTruthy : Bool := match batch_size with
    | some bs => bs ≠ 0
    | none => false
  if batchTruthy then
    runBatchPath env title chat_username date messages (batch_size.getD 0)
  else runLegacy env title chat_username date messages window_size

/-- Steps 1-6 of `AnalyzerService.analyze` past the existence check
(`analyzer_service.py:87-317`): load the transcript, take the
multi-batch or legacy path, then the shared tail. -/
def analyzeCore (env : AnalyzeEnv) (store : AnalysisStore) (chat date : String)
    (window_size : Nat) (batch_size : Option Nat) : AnalyzeOutput :=
  match env.loadMessages chat date with
  | none => ⟨.error .dataNotFound, store, []⟩
  | some message_dump =>
    finishAnalyze env store chat date (pyLstripAt message_dump.source_info.id)
      message_dump.messages
      (selectPath env message_dump.source_info.title
        (pyLstripAt message_dump.source_info.id) date message_dump.messages
        window_size batch_size)

/-- Method `AnalyzerService.analyze` (`analyzer_service.py:46`): when a stored
result exists and `force` is false, return it unchanged without any
other effect; otherwise run the pipeline. -/
def analyze (env : AnalyzeEnv) (store : AnalysisStore) (chat date : String)
    (window_size : Nat := 30) (force : Bool := false)
    (batch_size : Option Nat := some 100) : AnalyzeOutput :=
  match storeFind store chat date with
  | some existing =>
    if force then analyzeCore env store chat date window_size batch_size
    else ⟨.ok existing, store, []⟩
  | none => analyzeCore env store chat date window_size batch_size

/-! ## Lemmas about the chunking step -/

theorem pythonChunks_nil (bs : Nat) : pythonChunks bs ([] : List α) = [] := by
  unfold pythonChunks pythonRange
  rcases Nat.eq_zero_or_pos bs with h | h
  · simp [h]
  · rw [if_neg (Nat.pos_iff_ne_zero.mp h)]
    simp only [List.length_nil]
    rw [Nat.div_eq_of_lt (by omega)]
    simp

theorem pythonChunks_cons (bs : Nat) (hbs : 0 < bs) (xs : List α) (hne : xs ≠ []) :
    pythonChunks bs xs = xs.take bs :: pythonChunks bs (xs.drop bs) := by
  have hn : 1 ≤ xs.length := List.length_pos.mpr hne
  have hdiv : (xs.length + bs - 1) / bs = (xs.length - 1) / bs + 1 := by
    have hc : xs.length + bs - 1 = (xs.length - 1) + bs := by omega
    rw [hc, Nat.add_div_right _ hbs]
  have hdiv2 : ((xs.length - bs) + bs - 1) / bs = (xs.length - 1) / bs := by
    rcases le_or_lt xs.length bs with h | h
    · have h1 : xs.length - bs = 0 := by omega
      rw [h1]
      rw [Nat.div_eq_of_lt (by omega), Nat.div_eq_of_lt (by omega)]
    · have h2 : xs.length - bs + bs - 1 = xs.length - 1 := by omega
      rw [h2]
  unfold pythonChunks pythonRange
  simp only [if_neg (Nat.pos_iff_ne_zero.mp hbs), List.length_drop, Nat.sub_zero,
    List.map_map]
  rw [hdiv2, hdiv, List.range_succ_eq_map]
  simp only [List.map_cons, Function.comp, Nat.zero_add, Nat.mul_zero, List.drop_zero,
    List.map_map]
  refine congrArg₂ _ rfl ?_
  refine List.map_congr_left ?_
  intro k _
  simp only [Function.comp]
  rw [List.drop_drop]
  have h4 : bs * Nat.succ k = bs + bs * k := by
    rw [Nat.mul_succ, Nat.add_comm]
  rw [h4]

theorem pythonChunks_flatten (bs : Nat) (hbs : 0 < bs) (xs : List α) :
    (pythonChunks bs xs).flatten = xs := by
  by_cases hne : xs = []
  · subst hne; simp [pythonChunks_nil]
  · rw [pythonChunks_cons bs hbs xs hne]
    have ih := pythonChunks_flatten bs hbs (xs.drop bs)
    simp only [List.flatten_cons, ih]
    exact List.take_append_drop bs xs
termination_by xs.length
decreasing_by
  have : 0 < xs.length := List.length_pos.mpr hne
  simp only [List.length_drop]
  omega

theorem pythonChunks_count (bs : Nat) (hbs : 0 < bs) (xs : List α) :
    (pythonChunks bs xs).length = (xs.length + bs - 1) / bs := by
  unfold pythonChunks pythonRange
  rw [if_neg (Nat.pos_iff_ne_zero.mp hbs)]
  simp

theorem pythonChunks_sizes (bs : Nat) (hbs : 0 < bs) (xs : List α) :
    ∀ c ∈ pythonChunks bs xs, c.length ≤ bs ∧ c ≠ [] := by
  intro c hc
  simp only [pythonChunks, pythonRange, if_neg (Nat.pos_iff_ne_zero.mp hbs),
    List.map_map, List.mem_map, List.mem_range, Function.comp] at hc
  obtain ⟨k, hk, rfl⟩ := hc
  have h1 : (k + 1) * bs ≤ ((xs.length + bs - 1) / bs) * bs :=
    Nat.mul_le_mul_right bs hk
  have h2 : ((xs.length + bs - 1) / bs) * bs ≤ xs.length + bs - 1 :=
    Nat.div_mul_le_self _ _
  have h3 : k * bs + bs ≤ xs.length + bs - 1 := by
    calc k * bs + bs = (k + 1) * bs := by ring
    _ ≤ _ := le_trans h1 h2
  constructor
  · simp [List.length_take]
  · rw [← List.length_pos]
    simp only [List.length_take, List.length_drop]
    have hak : bs * k = k * bs := by ring
    rw [Nat.lt_min, hak]
    omega

theorem pythonChunks_full_sizes (bs : Nat) (hbs : 0 < bs) (xs : List α) :
    ∀ i c, (pythonChunks bs xs)[i]? = some c → i + 1 < (pythonChunks bs xs).length →
      c.length = bs := by
  intro i c hc hi
  rw [pythonChunks_count bs hbs xs] at hi
  simp only [pythonChunks, pythonRange, if_neg (Nat.pos_iff_ne_zero.mp hbs),
    Nat.sub_zero, List.map_map, List.getElem?_map, Function.comp] at hc
  have hilt : i < (xs.length + bs - 1) / bs := by omega
  rw [List.getElem?_range hilt] at hc
  simp only [Option.map_some', Option.some.injEq] at hc
  subst hc
  have h1 : (i + 2) * bs ≤ ((xs.length + bs - 1) / bs) * bs :=
    Nat.mul_le_mul_right bs hi
  have h2 : ((xs.length + bs - 1) / bs) * bs ≤ xs.length + bs - 1 :=
    Nat.div_mul_le_self _ _
  have h3 : i * bs + 2 * bs ≤ xs.length + bs - 1 := by
    calc i * bs + 2 * bs = (i + 2) * bs := by ring
    _ ≤ _ := le_trans h1 h2
  simp only [Function.comp_apply, List.length_take, List.length_drop]
  have hak : bs * i = i * bs := by ring
  rw [Nat.zero_add, hak]
  omega

theorem pythonChunks_ceil (bs : Nat) (hbs : 0 < bs) (xs : List α) (hne : xs ≠ []) :
    xs.length ≤ bs * (pythonChunks bs xs).length ∧
      bs * ((pythonChunks bs xs).length - 1) < xs.length := by
  rw [pythonChunks_count bs hbs xs]
  have hn : 1 ≤ xs.length := List.length_pos.mpr hne
  have hdiv : (xs.length + bs - 1) / bs = (xs.length - 1) / bs + 1 := by
    have hc : xs.length + bs - 1 = (xs.length - 1) + bs := by omega
    rw [hc, Nat.add_div_right _ hbs]
  rw [hdiv]
  have hmod := Nat.div_add_mod (xs.length - 1) bs
  have hmlt : (xs.length - 1) % bs < bs := Nat.mod_lt _ hbs
  refine ⟨?_, ?_⟩
  · have hmul : bs * ((xs.length - 1) / bs + 1) = bs * ((xs.length - 1) / bs) + bs := by
      ring
    rw [hmul]
    omega
  · simp only [Nat.add_sub_cancel]
    have hle : bs * ((xs.length - 1) / bs) ≤ xs.length - 1 := by
      calc bs * ((xs.length - 1) / bs) = ((xs.length - 1) / bs) * bs := by ring
      _ ≤ _ := Nat.div_mul_le_self _ _
    omega

/-! ## Claim C2 -/

/-- C2: for every message list and every `batchSize > 0`, the chunking
step of `analyze` produces exactly `⌈n / batchSize⌉` batches (stated as
`(n + bs - 1) / bs` together with the characterising bounds), each of
size `batchSize` except possibly the last (which is nonempty and at
most `batchSize`), and their concatenation in order is the original
message sequence — so no message is duplicated, missing, or in more
than one batch. -/
theorem chunking_partitions (bs : Nat) (hbs : 0 < bs) (xs : List α) :
    (pythonChunks bs xs).length = (xs.length + bs - 1) / bs ∧
    (xs ≠ [] → xs.length ≤ bs * (pythonChunks bs xs).length ∧
      bs * ((pythonChunks bs xs).length - 1) < xs.length) ∧
    (pythonChunks bs xs).flatten = xs ∧
    (∀ i c, (pythonChunks bs xs)[i]? = some c →
      i + 1 < (pythonChunks bs xs).length → c.length = bs) ∧
    (∀ c ∈ pythonChunks bs xs, c.length ≤ bs ∧ c ≠ []) :=
  ⟨pythonChunks_count bs hbs xs, pythonChunks_ceil bs hbs xs,
    pythonChunks_flatten bs hbs xs, pythonChunks_full_sizes bs hbs xs,
    pythonChunks_sizes bs hbs xs⟩

/-- Witness for C2 at `batchSize = 2` over a concrete 5-message list:
`ceil(5/2) = 3` batches `[[1,2],[3,4],[5]]`. -/
theorem chunking_partitions_witness :
    0 < 2 ∧
      ((pythonChunks 2 [1, 2, 3, 4, 5]).length = (5 + 2 - 1) / 2 ∧
        (pythonChunks 2 [1, 2, 3, 4, 5]).flatten = [1, 2, 3, 4, 5]) ∧
      pythonChunks 2 [1, 2, 3, 4, 5] = [[1, 2], [3, 4], [5]] := by
  refine ⟨by decide, ⟨?_, ?_⟩, by decide⟩
  · simpa using (chunking_partitions 2 (by decide) [1, 2, 3, 4, 5]).1
  · exact (chunking_partitions 2 (by decide) [1, 2, 3, 4, 5]).2.2.1

/-! ## Claim C6 -/

/-- C6: for all non-negative `participantCount`, `messageCount`,
`practicalValue`, the priority is `"high"` iff
`participantCount ≥ 5 ∨ messageCount ≥ 10 ∨ practicalValue ≥ 8`,
otherwise `"medium"` iff
`participantCount ≥ 3 ∨ messageCount ≥ 5 ∨ practicalValue ≥ 5`,
otherwise `"low"`; in particular `(5,0,0) ↦ high`, `(3,0,0) ↦ medium`,
`(2,4,4) ↦ low`. -/
theorem priority_classification :
    (∀ p m v : Int, 0 ≤ p → 0 ≤ m → 0 ≤ v →
      ((calculatePriority p m v = "high" ↔ 5 ≤ p ∨ 10 ≤ m ∨ 8 ≤ v) ∧
       (calculatePriority p m v = "medium" ↔
         ¬(5 ≤ p ∨ 10 ≤ m ∨ 8 ≤ v) ∧ (3 ≤ p ∨ 5 ≤ m ∨ 5 ≤ v)) ∧
       (calculatePriority p m v = "low" ↔
         ¬(5 ≤ p ∨ 10 ≤ m ∨ 8 ≤ v) ∧ ¬(3 ≤ p ∨ 5 ≤ m ∨ 5 ≤ v)))) ∧
    calculatePriority 5 0 0 = "high" ∧
    calculatePriority 3 0 0 = "medium" ∧
    calculatePriority 2 4 4 = "low" := by
  refine ⟨?_, by decide, by decide, by decide⟩
  intro p m v _ _ _
  unfold calculatePriority
  split_ifs with h1 h2
  · exact ⟨iff_of_true rfl h1, iff_of_false (by decide) (fun h => h.1 h1),
      iff_of_false (by decide) (fun h => h.1 h1)⟩
  · exact ⟨iff_of_false (by decide) h1, iff_of_true rfl ⟨h1, h2⟩,
      iff_of_false (by decide) (fun h => h.2 h2)⟩
  · exact ⟨iff_of_false (by decide) h1, iff_of_false (by decide) (fun h => h2 h.2),
      iff_of_true rfl ⟨h1, h2⟩⟩

/-- Witness for C6 at the claim's boundary triple `(5, 0, 0)`. -/
theorem priority_classification_witness :
    (0 : Int) ≤ 5 ∧ (calculatePriority 5 0 0 = "high" ↔
      (5 : Int) ≤ 5 ∨ (10 : Int) ≤ 0 ∨ (8 : Int) ≤ 0) :=
  ⟨by decide, (priority_classification.1 5 0 0 (by decide) (by decide) (by decide)).1⟩

/-! ## Claim C9 -/

/-- A link is valid for `_validate_links`: it starts with the canonical
prefix for the expected username, its trailing path segment parses as
an integer, and that integer is among the valid message ids. -/
def validLink (chat_username : String) (message_ids : List Int) (link : String) : Prop :=
  pyStartsWith link ("https://t.me/" ++ chat_username ++ "/") = true ∧
  ∃ msg_id, pythonInt? ((pySplitOn link "/").getLastD "") = some msg_id ∧ msg_id ∈ message_ids

theorem linkError_none_iff (topic es : String) (ids : List Int) (link : String) :
    linkError topic es ids link = none ↔
      (pyStartsWith link es = true ∧
        ∃ msg_id, pythonInt? ((pySplitOn link "/").getLastD "") = some msg_id ∧
          msg_id ∈ ids) := by
  unfold linkError
  by_cases hs : pyStartsWith link es = true
  · simp only [hs, not_true_eq_false, if_false, true_and]
    cases hparse : pythonInt? ((pySplitOn link "/").getLastD "") with
    | none => simp
    | some msg_id =>
      by_cases hm : msg_id ∈ ids
      · simp [hm]
      · simp [hm]
  · simp [hs]

theorem validateLinks_eq_nil_iff (ds : List Discussion) (u : String) (ids : List Int) :
    validateLinks ds u ids = [] ↔
      ∀ d ∈ ds, ∀ link ∈ d.message_links, validLink u ids link := by
  unfold validateLinks
  rw [List.flatten_eq_nil_iff]
  constructor
  · intro h d hd link hl
    have hmem : d.message_links.filterMap
        (linkError d.topic ("https://t.me/" ++ u ++ "/") ids) = [] :=
      h _ (List.mem_map_of_mem _ hd)
    rw [List.filterMap_eq_nil_iff] at hmem
    exact (linkError_none_iff d.topic _ ids link).mp (hmem link hl)
  · intro h l hl
    rw [List.mem_map] at hl
    obtain ⟨d, hd, rfl⟩ := hl
    rw [List.filterMap_eq_nil_iff]
    intro link hlink
    exact (linkError_none_iff d.topic _ ids link).mpr (h d hd link hlink)

set_option maxRecDepth 8192 in
/-- C9: `_validate_links` reports a violation for a link iff the link
does not start with `https://t.me/<expectedUsername>/`, or its trailing
segment does not parse as an integer, or the parsed id is not among the
valid message ids; the result is `[]` exactly when every link of every
discussion is valid.  The claim's three concrete examples are included
verbatim. -/
theorem link_validation :
    (∀ topic es : String, ∀ ids : List Int, ∀ link : String,
      ((linkError topic es ids link).isSome ↔
        (¬ pyStartsWith link es = true ∨
         pythonInt? ((pySplitOn link "/").getLastD "") = none ∨
         ∃ msg_id, pythonInt? ((pySplitOn link "/").getLastD "") = some msg_id ∧
           msg_id ∉ ids))) ∧
    (∀ ds : List Discussion, ∀ u : String, ∀ ids : List Int,
      (validateLinks ds u ids = [] ↔
        ∀ d ∈ ds, ∀ link ∈ d.message_links, validLink u ids link)) ∧
    validateLinks [{ topic := "T", message_links := ["https://t.me/ru_python/2641549"] }]
        "ru_python" [2641549] = [] ∧
    validateLinks [{ topic := "T", message_links := ["https://t.me/ru_python/2641549"] }]
        "ru_python" [111] = ["T: Message 2641549 not in analyzed messages"] ∧
    validateLinks [{ topic := "T", message_links := ["https://t.me/other/2641549"] }]
        "ru_python" [2641549] =
      ["T: Wrong username in link: https://t.me/other/2641549 (expected: https://t.me/ru_python/)"] := by
  refine ⟨?_, validateLinks_eq_nil_iff, by decide, by decide, by decide⟩
  intro topic es ids link
  rw [Option.isSome_iff_ne_none, Ne, linkError_none_iff]
  constructor
  · intro hn
    by_cases hs : pyStartsWith link es = true
    · by_cases hp : pythonInt? ((pySplitOn link "/").getLastD "") = none
      · exact Or.inr (Or.inl hp)
      · obtain ⟨msg_id, hpm⟩ := Option.ne_none_iff_exists'.mp hp
        exact Or.inr (Or.inr ⟨msg_id, hpm, fun hm => hn ⟨hs, msg_id, hpm, hm⟩⟩)
    · exact Or.inl hs
  · rintro (hs | hp | ⟨msg_id, hp, hm⟩) ⟨h1, m2, hp2, hm2⟩
    · exact hs h1
    · rw [hp] at hp2
      exact Option.noConfusion hp2
    · rw [hp] at hp2
      injection hp2 with he
      subst he
      exact hm hm2

/-! ## Claim C5 -/

/-- Spec side: an attempt outcome the loop retries on — HTTP 429, HTTP
5xx, or a network timeout. -/
def retryableOutcome : AttemptOutcome → Bool
  | .status code _ => decide (code = 429 ∨ (500 ≤ code ∧ code < 600))
  | .timeout => true

/-- Spec side: the sleep performed after a retryable attempt — the
`Retry-After` value (default 60) for 429, else
`retryDelay * 2 ^ attempt`. -/
def sleepForAttempt (retryDelay : ℚ) (attempt : Nat) : AttemptOutcome → ℚ
  | .status code hdr =>
    if code = 429 then ((hdr.getD 60 : Int) : ℚ) else retryDelay * 2 ^ attempt
  | .timeout => retryDelay * 2 ^ attempt

/-- Spec side: how the loop ends at the first non-retryable attempt
`j` — success on 2xx, immediate `APIError` on any other status. -/
def stopOutcome (j : Nat) : AttemptOutcome → RetryOutcome
  | .status code _ => if 200 ≤ code ∧ code < 300 then .success j else .apiError code
  | .timeout => .timeoutError

/-- Spec side: how the loop ends when the last allowed attempt is still
retryable — `RateLimitError` after a 429, `APIError` after 5xx,
`TimeoutError` after a timeout. -/
def exhaustOutcome : AttemptOutcome → RetryOutcome
  | .status code hdr =>
    if code = 429 then .rateLimitError (hdr.getD 60) else .apiError code
  | .timeout => .timeoutError

/-- Spec side: closed form of the retry policy as the claim states it,
over the attempts `attempt, …, attempt + remaining - 1`: the loop stops
at the first non-retryable attempt with `stopOutcome`, sleeping
`sleepForAttempt` after each earlier (retryable) attempt; if every
allowed attempt is retryable it ends with `exhaustOutcome` of the last
one. -/
def retrySpecClosed (retryDelay : ℚ) (oc : Nat → AttemptOutcome)
    (attempt remaining : Nat) : RetryOutcome × List ℚ :=
  match (List.range' attempt remaining).find? (fun i => ! retryableOutcome (oc i)) with
  | some j => (stopOutcome j (oc j),
      (List.range' attempt (j - attempt)).map (fun i => sleepForAttempt retryDelay i (oc i)))
  | none => (exhaustOutcome (oc (attempt + remaining - 1)),
      (List.range' attempt (remaining - 1)).map
        (fun i => sleepForAttempt retryDelay i (oc i)))

theorem retrySpecClosed_retry_step (rd : ℚ) (oc : Nat → AttemptOutcome)
    (attempt r : Nat) (hretry : retryableOutcome (oc attempt) = true) (hr : 0 < r) :
    retrySpecClosed rd oc attempt (r + 1) =
      ((retrySpecClosed rd oc (attempt + 1) r).1,
        sleepForAttempt rd attempt (oc attempt) ::
          (retrySpecClosed rd oc (attempt + 1) r).2) := by
  unfold retrySpecClosed
  rw [List.range'_succ, List.find?_cons_of_neg _ (by simp [hretry])]
  cases hfind : (List.range' (attempt + 1) r).find?
      (fun i => ! retryableOutcome (oc i)) with
  | some j =>
    have hj : j ∈ List.range' (attempt + 1) r := List.mem_of_find?_eq_some hfind
    have hge : attempt + 1 ≤ j := (List.mem_range'_1.mp hj).1
    have h1 : j - attempt = (j - (attempt + 1)) + 1 := by omega
    dsimp only
    rw [h1, List.range'_succ, List.map_cons]
  | none =>
    dsimp only
    simp only [Prod.mk.injEq]
    constructor
    · have h1 : attempt + (r + 1) - 1 = attempt + 1 + r - 1 := by omega
      rw [h1]
    · have h2 : r + 1 - 1 = (r - 1) + 1 := by omega
      rw [h2, List.range'_succ, List.map_cons]

theorem retrySpecClosed_exhaust_one (rd : ℚ) (oc : Nat → AttemptOutcome)
    (attempt : Nat) (hretry : retryableOutcome (oc attempt) = true) :
    retrySpecClosed rd oc attempt 1 = (exhaustOutcome (oc attempt), []) := by
  unfold retrySpecClosed
  rw [List.range'_succ, List.find?_cons_of_neg _ (by simp [hretry])]
  simp [List.range']

theorem retrySpecClosed_stop (rd : ℚ) (oc : Nat → AttemptOutcome)
    (attempt r : Nat) (hretry : retryableOutcome (oc attempt) = false) :
    retrySpecClosed rd oc attempt (r + 1) = (stopOutcome attempt (oc attempt), []) := by
  unfold retrySpecClosed
  rw [List.range'_succ, List.find?_cons_of_pos _ (by simp [hretry])]
  simp [List.range']

theorem retryAttempts_eq_closed (rd : ℚ) (oc : Nat → AttemptOutcome) :
    ∀ remaining attempt, 0 < remaining →
      retryAttempts rd oc attempt remaining = retrySpecClosed rd oc attempt remaining := by
  intro remaining
  induction remaining with
  | zero => intro attempt h; exact absurd h (by omega)
  | succ r ih =>
    intro attempt _
    cases hoc : oc attempt with
    | status code hdr =>
      by_cases h429 : code = 429
      · have hretry : retryableOutcome (oc attempt) = true := by
          simp [hoc, retryableOutcome, h429]
        rcases Nat.eq_zero_or_pos r with hr | hr
        · subst hr
          rw [retrySpecClosed_exhaust_one rd oc attempt hretry]
          simp [retryAttempts, hoc, h429, exhaustOutcome]
        · rw [retrySpecClosed_retry_step rd oc attempt r hretry hr, ← ih (attempt + 1) hr]
          simp [retryAttempts, hoc, h429, sleepForAttempt,
            Nat.pos_iff_ne_zero.mp hr]
      · by_cases h5xx : 500 ≤ code ∧ code < 600
        · have hretry : retryableOutcome (oc attempt) = true := by
            simp [hoc, retryableOutcome, h5xx]
          rcases Nat.eq_zero_or_pos r with hr | hr
          · subst hr
            rw [retrySpecClosed_exhaust_one rd oc attempt hretry]
            simp [retryAttempts, hoc, h429, h5xx, exhaustOutcome]
          · rw [retrySpecClosed_retry_step rd oc attempt r hretry hr,
              ← ih (attempt + 1) hr]
            simp [retryAttempts, hoc, h429, h5xx, sleepForAttempt,
              Nat.pos_iff_ne_zero.mp hr]
        · have hretry : retryableOutcome (oc attempt) = false := by
            simp only [hoc, retryableOutcome]
            simp [h429, h5xx]
          rw [retrySpecClosed_stop rd oc attempt r hretry]
          by_cases h2xx : 200 ≤ code ∧ code < 300
          · simp [retryAttempts, hoc, h429, h5xx, h2xx, stopOutcome]
          · simp [retryAttempts, hoc, h429, h5xx, h2xx, stopOutcome]
    | timeout =>
      have hretry : retryableOutcome (oc attempt) = true := by
        simp [hoc, retryableOutcome]
      rcases Nat.eq_zero_or_pos r with hr | hr
      · subst hr
        rw [retrySpecClosed_exhaust_one rd oc attempt hretry]
        simp [retryAttempts, hoc, exhaustOutcome]
      · rw [retrySpecClosed_retry_step rd oc attempt r hretry hr, ← ih (attempt + 1) hr]
        simp [retryAttempts, hoc, sleepForAttempt, Nat.pos_iff_ne_zero.mp hr]

theorem retry_scenario_500 :
    requestWithRetry 3 1 (fun _ => AttemptOutcome.status 500 none) =
      (RetryOutcome.apiError 500, [1, 2]) := by
  rw [show requestWithRetry 3 1 (fun _ => AttemptOutcome.status 500 none) =
      retrySpecClosed 1 (fun _ => AttemptOutcome.status 500 none) 0 3 from
    retryAttempts_eq_closed 1 _ 3 0 (by omega)]
  unfold retrySpecClosed
  norm_num [List.range', List.find?, retryableOutcome, exhaustOutcome, sleepForAttempt]

/-- C5: the retry wrapper makes at most `maxRetries` attempts (the
number of sleeps is strictly below `maxRetries`) and implements exactly
the closed-form classification `retrySpecClosed`: it stops at the first
non-retryable attempt — success on 2xx, immediate `APIError` with the
status for any other non-429/non-5xx status, no retry — after sleeping
the `Retry-After` value (default 60, no exponential growth) for each
429 and `retryDelay * 2 ^ attempt` for each 5xx or timeout; when every
allowed attempt is retryable it raises `RateLimitError` / `APIError` /
`TimeoutError` for a final 429 / 5xx / timeout.  For three consecutive
HTTP 500s with `retryDelay = 1` the observed sleeps are 1s then 2s and
the third attempt raises `APIError`. -/
theorem retry_backoff_policy (mr : Nat) (rd : ℚ) (oc : Nat → AttemptOutcome)
    (hmr : 0 < mr) :
    requestWithRetry mr rd oc = retrySpecClosed rd oc 0 mr ∧
    (requestWithRetry mr rd oc).2.length + 1 ≤ mr ∧
    requestWithRetry 3 1 (fun _ => AttemptOutcome.status 500 none) =
      (RetryOutcome.apiError 500, [1, 2]) := by
  have hmain : requestWithRetry mr rd oc = retrySpecClosed rd oc 0 mr :=
    retryAttempts_eq_closed rd oc mr 0 hmr
  refine ⟨hmain, ?_, retry_scenario_500⟩
  rw [hmain]
  unfold retrySpecClosed
  cases hfind : (List.range' 0 mr).find? (fun i => ! retryableOutcome (oc i)) with
  | some j =>
    have hj : j ∈ List.range' 0 mr := List.mem_of_find?_eq_some hfind
    have hlt : j < mr := by
      have := List.mem_range'_1.mp hj
      omega
    dsimp only
    simp only [List.length_map, List.length_range']
    omega
  | none =>
    dsimp only
    simp only [List.length_map, List.length_range']
    omega

/-- Witness for C5 at the claim's concrete scenario
(`maxRetries = 3`, `retryDelay = 1`, three consecutive HTTP 500s). -/
theorem retry_backoff_policy_witness :
    0 < 3 ∧ requestWithRetry 3 1 (fun _ => AttemptOutcome.status 500 none) =
      (RetryOutcome.apiError 500, [1, 2]) :=
  ⟨by decide,
    (retry_backoff_policy 3 1 (fun _ => AttemptOutcome.status 500 none) (by decide)).2.2⟩

/-! ## Lemmas about the merge engine -/

theorem dictFromKeysGo_mem [DecidableEq α] (l : List α) :
    ∀ (seen : List α) (a : α), a ∈ dictFromKeysGo seen l ↔ a ∈ l ∧ a ∉ seen := by
  induction l with
  | nil => intro seen a; simp [dictFromKeysGo]
  | cons x xs ih =>
    intro seen a
    by_cases hx : x ∈ seen
    · rw [dictFromKeysGo, if_pos hx, ih]
      constructor
      · rintro ⟨ha, hns⟩; exact ⟨List.mem_cons_of_mem _ ha, hns⟩
      · rintro ⟨ha, hns⟩
        rcases List.mem_cons.mp ha with rfl | ha
        · exact absurd hx hns
        · exact ⟨ha, hns⟩
    · rw [dictFromKeysGo, if_neg hx]
      rw [List.mem_cons, ih]
      constructor
      · rintro (rfl | ⟨ha, hns⟩)
        · exact ⟨List.mem_cons_self _ _, hx⟩
        · refine ⟨List.mem_cons_of_mem _ ha, fun hs => hns ?_⟩
          exact List.mem_append_left _ hs
      · rintro ⟨ha, hns⟩
        rcases List.mem_cons.mp ha with rfl | ha
        · exact Or.inl rfl
        · by_cases hax : a = x
          · exact Or.inl hax
          · refine Or.inr ⟨ha, fun hs => ?_⟩
            rcases List.mem_append.mp hs with hs | hs
            · exact hns hs
            · exact hax (List.mem_singleton.mp hs)

theorem dictFromKeysGo_nodup [DecidableEq α] (l : List α) :
    ∀ seen : List α, (dictFromKeysGo seen l).Nodup := by
  induction l with
  | nil => intro seen; simp [dictFromKeysGo]
  | cons x xs ih =>
    intro seen
    by_cases hx : x ∈ seen
    · rw [dictFromKeysGo, if_pos hx]; exact ih seen
    · rw [dictFromKeysGo, if_neg hx]
      refine List.nodup_cons.mpr ⟨fun hmem => ?_, ih _⟩
      have := (dictFromKeysGo_mem xs (seen ++ [x]) x).mp hmem
      exact this.2 (List.mem_append_right _ (List.mem_singleton.mpr rfl))

theorem dictFromKeysGo_eq_self [DecidableEq α] (l : List α) :
    ∀ seen : List α, l.Nodup → (∀ a ∈ l, a ∉ seen) → dictFromKeysGo seen l = l := by
  induction l with
  | nil => intro seen _ _; rfl
  | cons x xs ih =>
    intro seen hnodup hdis
    rw [dictFromKeysGo, if_neg (hdis x (List.mem_cons_self _ _))]
    congr 1
    refine ih _ (List.nodup_cons.mp hnodup).2 ?_
    intro a ha hs
    rcases List.mem_append.mp hs with hs | hs
    · exact hdis a (List.mem_cons_of_mem _ ha) hs
    · exact (List.nodup_cons.mp hnodup).1 (List.mem_singleton.mp hs ▸ ha)

theorem dictFromKeys_mem [DecidableEq α] (l : List α) (a : α) :
    a ∈ dictFromKeys l ↔ a ∈ l := by
  rw [dictFromKeys, dictFromKeysGo_mem]
  simp

theorem dictFromKeys_nodup [DecidableEq α] (l : List α) : (dictFromKeys l).Nodup :=
  dictFromKeysGo_nodup l []

theorem dictFromKeys_eq_self [DecidableEq α] (l : List α) (h : l.Nodup) :
    dictFromKeys l = l :=
  dictFromKeysGo_eq_self l [] h (by simp)

theorem dictFromKeys_idem [DecidableEq α] (l : List α) :
    dictFromKeys (dictFromKeys l) = dictFromKeys l :=
  dictFromKeys_eq_self _ (dictFromKeys_nodup l)

theorem dictFromKeys_take_five [DecidableEq α] (l : List α) :
    (dictFromKeys ((dictFromKeys l).take 5)).take 5 = (dictFromKeys l).take 5 := by
  have h1 : ((dictFromKeys l).take 5).Nodup :=
    (List.take_sublist 5 _).nodup (dictFromKeys_nodup l)
  rw [dictFromKeys_eq_self _ h1, List.take_take]
  simp

theorem seedDiscussion_topic (d : RawDiscussion) :
    (seedDiscussion d).topic = d.topic := rfl

theorem mergeInto_topic (dst src : RawDiscussion) :
    (mergeInto dst src).topic = dst.topic := rfl

theorem seedDiscussion_idem (d : RawDiscussion) :
    seedDiscussion (seedDiscussion d) = seedDiscussion d := by
  unfold seedDiscussion
  simp only [dictFromKeys_take_five, dictFromKeys_idem]

theorem seedDiscussion_mergeInto (dst src : RawDiscussion) :
    seedDiscussion (mergeInto dst src) = mergeInto dst src := by
  unfold seedDiscussion mergeInto
  simp only [dictFromKeys_take_five, dictFromKeys_idem]

/-! assoc-list lemmas for the merge dictionary -/

theorem assocFind_eq_none_iff (t : String) (acc : List (String × RawDiscussion)) :
    assocFind t acc = none ↔ t ∉ acc.map Prod.fst := by
  induction acc with
  | nil => simp [assocFind]
  | cons p rest ih =>
    obtain ⟨k, v⟩ := p
    by_cases hk : k = t
    · subst hk; simp [assocFind]
    · rw [assocFind]
      simp only [if_neg hk, ih, List.map_cons, List.mem_cons]
      constructor
      · intro h hmem
        rcases hmem with h2 | h2
        · exact hk h2.symm
        · exact h h2
      · intro h h2
        exact h (Or.inr h2)

theorem assocFind_append (t : String) (a b : List (String × RawDiscussion)) :
    assocFind t (a ++ b) =
      match assocFind t a with
      | some v => some v
      | none => assocFind t b := by
  induction a with
  | nil => simp [assocFind]
  | cons p rest ih =>
    obtain ⟨k, v⟩ := p
    by_cases hk : k = t
    · simp [assocFind, hk]
    · simp only [List.cons_append, assocFind, if_neg hk]
      exact ih

theorem assocUpdate_keys (t : String) (f : RawDiscussion → RawDiscussion)
    (acc : List (String × RawDiscussion)) :
    (assocUpdate t f acc).map Prod.fst = acc.map Prod.fst := by
  induction acc with
  | nil => rfl
  | cons p rest ih =>
    obtain ⟨k, v⟩ := p
    by_cases hk : k = t
    · simp [assocUpdate, hk]
    · simp [assocUpdate, hk, ih]

theorem assocUpdate_eq_map (t : String) (f : RawDiscussion → RawDiscussion)
    (acc : List (String × RawDiscussion)) (hnodup : (acc.map Prod.fst).Nodup) :
    assocUpdate t f acc = acc.map (fun p => if p.1 = t then (p.1, f p.2) else p) := by
  induction acc with
  | nil => rfl
  | cons p rest ih =>
    obtain ⟨k, v⟩ := p
    have hrest : (rest.map Prod.fst).Nodup := (List.nodup_cons.mp hnodup).2
    by_cases hk : k = t
    · subst hk
      have hnk : k ∉ rest.map Prod.fst := (List.nodup_cons.mp hnodup).1
      have htail : rest.map (fun p => if p.1 = k then (p.1, f p.2) else p) = rest := by
        conv_rhs => rw [← List.map_id rest]
        apply List.map_congr_left
        intro q hq
        have hqk : q.1 ≠ k := fun h => hnk (h ▸ List.mem_map_of_mem Prod.fst hq)
        simp [hqk]
      simp [assocUpdate, htail]
    · simp [assocUpdate, hk, ih hrest]

theorem mergeStep_skip (acc : List (String × RawDiscussion)) (d : RawDiscussion)
    (h : normTopic d.topic = "") : mergeStep acc d = acc := by
  simp [mergeStep, h]

theorem mergeStep_fresh (acc : List (String × RawDiscussion)) (d : RawDiscussion)
    (ht : normTopic d.topic ≠ "") (h : assocFind (normTopic d.topic) acc = none) :
    mergeStep acc d = acc ++ [(normTopic d.topic, seedDiscussion d)] := by
  simp [mergeStep, ht, h]

theorem mergeStep_update (acc : List (String × RawDiscussion)) (d : RawDiscussion)
    (v : RawDiscussion) (ht : normTopic d.topic ≠ "")
    (h : assocFind (normTopic d.topic) acc = some v) :
    mergeStep acc d =
      assocUpdate (normTopic d.topic) (fun dst => mergeInto dst d) acc := by
  simp [mergeStep, ht, h]

/-- Invariant of the merge accumulator: keys are distinct and
non-empty, each key is the normalized topic of its entry, and each
entry is fixed by re-seeding. -/
def accInv (acc : List (String × RawDiscussion)) : Prop :=
  (acc.map Prod.fst).Nodup ∧
  ∀ p ∈ acc, p.1 = normTopic p.2.topic ∧ p.1 ≠ "" ∧ seedDiscussion p.2 = p.2

theorem assocUpdate_mem (t : String) (f : RawDiscussion → RawDiscussion)
    (acc : List (String × RawDiscussion)) :
    ∀ p ∈ assocUpdate t f acc, p ∈ acc ∨ ∃ v, (t, v) ∈ acc ∧ p = (t, f v) := by
  induction acc with
  | nil => intro p hp; simp [assocUpdate] at hp
  | cons q rest ih =>
    obtain ⟨k, v⟩ := q
    intro p hp
    by_cases hk : k = t
    · subst hk
      rw [assocUpdate, if_pos rfl] at hp
      rcases List.mem_cons.mp hp with rfl | hp
      · exact Or.inr ⟨v, List.mem_cons_self _ _, rfl⟩
      · exact Or.inl (List.mem_cons_of_mem _ hp)
    · rw [assocUpdate, if_neg hk] at hp
      rcases List.mem_cons.mp hp with rfl | hp
      · exact Or.inl (List.mem_cons_self _ _)
      · rcases ih p hp with h | ⟨w, hw, rfl⟩
        · exact Or.inl (List.mem_cons_of_mem _ h)
        · exact Or.inr ⟨w, List.mem_cons_of_mem _ hw, rfl⟩

theorem pydValidB_seed (d : RawDiscussion) :
    pydValidB (seedDiscussion d) = pydValidB d := rfl

theorem pydValidB_mergeInto (dst src : RawDiscussion)
    (h1 : pydValidB dst = true) (h2 : pydValidB src = true) :
    pydValidB (mergeInto dst src) = true := by
  simp only [pydValidB, mergeInto, Bool.and_eq_true, decide_eq_true_eq] at h1 h2 ⊢
  obtain ⟨⟨⟨⟨⟨a1, a2⟩, a3⟩, a4⟩, a5⟩, a6⟩ := h1
  obtain ⟨⟨⟨⟨⟨b1, b2⟩, b3⟩, b4⟩, b5⟩, b6⟩ := h2
  refine ⟨⟨⟨⟨⟨le_max_of_le_left a1, max_le a2 b2⟩, ?_⟩, ?_⟩, a5⟩, ?_⟩
  · by_cases h : dst.practical_value < src.practical_value <;> simp [h, a3, b3]
  · by_cases h : dst.practical_value < src.practical_value <;> simp [h, a4, b4]
  · by_cases h : dst.practical_value < src.practical_value <;> simp [h, a6, b6]

theorem mergeStep_valid (acc : List (String × RawDiscussion)) (d : RawDiscussion)
    (hd : pydValidB d = true) (hacc : ∀ p ∈ acc, pydValidB p.2 = true) :
    ∀ p ∈ mergeStep acc d, pydValidB p.2 = true := by
  intro p hp
  by_cases ht : normTopic d.topic = ""
  · rw [mergeStep_skip acc d ht] at hp
    exact hacc p hp
  · cases hf : assocFind (normTopic d.topic) acc with
    | none =>
      rw [mergeStep_fresh acc d ht hf] at hp
      rcases List.mem_append.mp hp with hp | hp
      · exact hacc p hp
      · rw [List.mem_singleton] at hp
        subst hp
        rw [pydValidB_seed]
        exact hd
    | some old =>
      rw [mergeStep_update acc d old ht hf] at hp
      rcases assocUpdate_mem _ _ acc p hp with hmem | ⟨v, hv, rfl⟩
      · exact hacc p hmem
      · exact pydValidB_mergeInto v d (hacc (normTopic d.topic, v) hv) hd

theorem foldl_mergeStep_valid (ds : List RawDiscussion) :
    ∀ acc, (∀ d ∈ ds, pydValidB d = true) → (∀ p ∈ acc, pydValidB p.2 = true) →
      ∀ p ∈ ds.foldl mergeStep acc, pydValidB p.2 = true := by
  induction ds with
  | nil => intro acc _ hacc; exact hacc
  | cons d rest ih =>
    intro acc hds hacc
    exact ih _ (fun x hx => hds x (List.mem_cons_of_mem _ hx))
      (mergeStep_valid acc d (hds d (List.mem_cons_self _ _)) hacc)

theorem mergeDiscussions_valid (ds : List RawDiscussion)
    (h : ∀ d ∈ ds, pydValidB d = true) :
    ∀ r ∈ mergeDiscussions ds, pydValidB r = true := by
  intro r hr
  unfold mergeDiscussions at hr
  obtain ⟨p, hp, rfl⟩ := List.mem_map.mp hr
  exact foldl_mergeStep_valid ds [] h (by simp) p hp

theorem mergeStep_inv (acc : List (String × RawDiscussion)) (d : RawDiscussion)
    (h : accInv acc) : accInv (mergeStep acc d) := by
  by_cases ht : normTopic d.topic = ""
  · rw [mergeStep_skip _ _ ht]; exact h
  · cases hfind : assocFind (normTopic d.topic) acc with
    | none =>
      rw [mergeStep_fresh _ _ ht hfind]
      have hnm : normTopic d.topic ∉ acc.map Prod.fst :=
        (assocFind_eq_none_iff _ _).mp hfind
      constructor
      · rw [List.map_append]
        refine List.Nodup.append h.1 (List.nodup_singleton _) ?_
        intro a ha hb
        simp only [List.map_singleton, List.mem_singleton] at hb
        subst hb
        exact hnm ha
      · intro p hp
        rcases List.mem_append.mp hp with hp | hp
        · exact h.2 p hp
        · rw [List.mem_singleton] at hp
          subst hp
          exact ⟨(seedDiscussion_topic d ▸ rfl), ht, seedDiscussion_idem d⟩
    | some v =>
      rw [mergeStep_update _ _ v ht hfind]
      refine ⟨by rw [assocUpdate_keys]; exact h.1, ?_⟩
      intro p hp
      rcases assocUpdate_mem _ _ _ p hp with hmem | ⟨w, hw, rfl⟩
      · exact h.2 p hmem
      · obtain ⟨hk, _, _⟩ := h.2 _ hw
        refine ⟨?_, ht, seedDiscussion_mergeInto w d⟩
        rw [mergeInto_topic]
        exact hk

theorem foldl_mergeStep_inv (ds : List RawDiscussion) :
    ∀ acc, accInv acc → accInv (ds.foldl mergeStep acc) := by
  induction ds with
  | nil => intro acc h; exact h
  | cons d ds ih =>
    intro acc h
    rw [List.foldl_cons]
    exact ih _ (mergeStep_inv acc d h)

theorem mergeDiscussions_props (ds : List RawDiscussion) :
    ((mergeDiscussions ds).map (fun d => normTopic d.topic)).Nodup ∧
    ∀ d ∈ mergeDiscussions ds, normTopic d.topic ≠ "" ∧ seedDiscussion d = d := by
  have hinv : accInv (ds.foldl mergeStep []) :=
    foldl_mergeStep_inv ds [] ⟨by simp, by simp⟩
  constructor
  · show (((ds.foldl mergeStep []).map Prod.snd).map (fun d => normTopic d.topic)).Nodup
    rw [List.map_map]
    have heq : (ds.foldl mergeStep []).map ((fun d => normTopic d.topic) ∘ Prod.snd) =
        (ds.foldl mergeStep []).map Prod.fst := by
      apply List.map_congr_left
      intro p hp
      exact ((hinv.2 p hp).1).symm
    rw [heq]
    exact hinv.1
  · intro d hd
    obtain ⟨p, hp, rfl⟩ := List.mem_map.mp hd
    obtain ⟨hk, hne, hst⟩ := hinv.2 p hp
    exact ⟨hk ▸ hne, hst⟩

theorem foldl_mergeStep_all_fresh (ds : List RawDiscussion) :
    ∀ acc : List (String × RawDiscussion),
      ((ds.map (fun d => normTopic d.topic)).Nodup) →
      (∀ d ∈ ds, normTopic d.topic ≠ "") →
      (∀ d ∈ ds, assocFind (normTopic d.topic) acc = none) →
      ds.foldl mergeStep acc =
        acc ++ ds.map (fun d => (normTopic d.topic, seedDiscussion d)) := by
  induction ds with
  | nil => intro acc _ _ _; simp
  | cons d ds ih =>
    intro acc hnodup hne hfresh
    have hhead : normTopic d.topic ∉ ds.map (fun e => normTopic e.topic) :=
      (List.nodup_cons.mp (by simpa using hnodup)).1
    rw [List.foldl_cons,
      mergeStep_fresh acc d (hne d (List.mem_cons_self _ _))
        (hfresh d (List.mem_cons_self _ _)),
      ih (acc ++ [(normTopic d.topic, seedDiscussion d)])
        (List.nodup_cons.mp (by simpa using hnodup)).2
        (fun e he => hne e (List.mem_cons_of_mem _ he)) ?_]
    · simp
    · intro e he
      have hek : normTopic d.topic ≠ normTopic e.topic := by
        intro hcontra
        refine hhead ?_
        rw [hcontra]
        exact List.mem_map_of_mem _ he
      rw [assocFind_append, hfresh e (List.mem_cons_of_mem _ he)]
      simp [assocFind, hek]

theorem mergeDiscussions_of_distinct (ds : List RawDiscussion)
    (h1 : (ds.map (fun d => normTopic d.topic)).Nodup)
    (h2 : ∀ d ∈ ds, normTopic d.topic ≠ "")
    (h3 : ∀ d ∈ ds, seedDiscussion d = d) :
    mergeDiscussions ds = ds := by
  unfold mergeDiscussions
  rw [foldl_mergeStep_all_fresh ds [] h1 h2 (fun d _ => rfl)]
  simp only [List.nil_append, List.map_map]
  conv_rhs => rw [← List.map_id ds]
  apply List.map_congr_left
  intro d hd
  exact h3 d hd

/-! ## Claim C4 -/

/-- A record with a duplicated keyword, used as the C4 counterexample
input. -/
def dDup : RawDiscussion := { topic := "t", keywords := ["x", "x"] }

/-- Seed-normal records with distinct topics, used in the C4 witness. -/
def dA : RawDiscussion := { topic := "a", keywords := ["x"] }

/-- Second record for the C4 witness. -/
def dB : RawDiscussion := { topic := "b" }

/-- C4 counterexample: a single record whose normalized topic list is
trivially pairwise distinct but whose keywords contain a duplicate —
merging it is not a no-op (the seed pass deduplicates the keywords), so
"merging a list whose normalized topics are already pairwise distinct
is a no-op" fails as stated. -/
theorem merge_noop_counterexample :
    (([dDup].map (fun d => normTopic d.topic)).Nodup) ∧
    mergeDiscussions [dDup] ≠ [dDup] := by
  constructor
  · decide
  · decide

/-- C4 (amended): `merge (merge X) = merge X` for every `X`; and
merging a list whose normalized topics are pairwise distinct and
non-empty is a no-op provided each record is additionally seed-normal
(keywords deduplicated and capped to 5, participants and message links
deduplicated) — the extra condition the counterexample forces. -/
theorem merge_idempotent :
    (∀ ds : List RawDiscussion,
      mergeDiscussions (mergeDiscussions ds) = mergeDiscussions ds) ∧
    (∀ ds : List RawDiscussion,
      (ds.map (fun d => normTopic d.topic)).Nodup →
      (∀ d ∈ ds, normTopic d.topic ≠ "") →
      (∀ d ∈ ds, seedDiscussion d = d) →
      mergeDiscussions ds = ds) := by
  constructor
  · intro ds
    obtain ⟨h1, h2⟩ := mergeDiscussions_props ds
    exact mergeDiscussions_of_distinct _ h1 (fun d hd => (h2 d hd).1)
      (fun d hd => (h2 d hd).2)
  · intro ds h1 h2 h3
    exact mergeDiscussions_of_distinct ds h1 h2 h3

/-- Witness for C4's amended no-op clause at a concrete two-record
seed-normal list with distinct topics. -/
theorem merge_idempotent_witness :
    (([dA, dB].map (fun d => normTopic d.topic)).Nodup ∧
      (∀ d ∈ [dA, dB], normTopic d.topic ≠ "") ∧
      (∀ d ∈ [dA, dB], seedDiscussion d = d)) ∧
    mergeDiscussions [dA, dB] = [dA, dB] :=
  ⟨⟨by decide, by decide, by decide⟩,
    merge_idempotent.2 _ (by decide) (by decide) (by decide)⟩

/-! ## Claim C3 -/

/-- Spec side, from the claim's description of `_merge_discussions`:
drop empty-topic records; the first record seen for a key seeds the
merged entry; each subsequent record with the same normalized topic is
merged in, in arrival order; entries appear in first-appearance order
of their keys. -/
def mergeSpecList : List RawDiscussion → List RawDiscussion
  | [] => []
  | d :: ds =>
    if normTopic d.topic = "" then mergeSpecList ds
    else
      ((ds.filter (fun x => normTopic x.topic = normTopic d.topic)).foldl mergeInto
          (seedDiscussion d)) ::
        mergeSpecList (ds.filter (fun x => ¬ normTopic x.topic = normTopic d.topic))
termination_by l => l.length
decreasing_by
  all_goals simp only [List.length_cons]
  all_goals first
    | exact Nat.lt_succ_of_le (List.length_filter_le _ _)
    | exact Nat.lt_succ_self _

theorem mergeSpecList_nil : mergeSpecList [] = [] := by
  simp [mergeSpecList]

theorem mergeSpecList_cons_skip (d : RawDiscussion) (ds : List RawDiscussion)
    (h : normTopic d.topic = "") : mergeSpecList (d :: ds) = mergeSpecList ds := by
  rw [mergeSpecList, if_pos h]

theorem mergeSpecList_cons (d : RawDiscussion) (ds : List RawDiscussion)
    (h : ¬ normTopic d.topic = "") :
    mergeSpecList (d :: ds) =
      ((ds.filter (fun x => normTopic x.topic = normTopic d.topic)).foldl mergeInto
          (seedDiscussion d)) ::
        mergeSpecList (ds.filter (fun x => ¬ normTopic x.topic = normTopic d.topic)) := by
  rw [mergeSpecList, if_neg h]

theorem foldl_mergeStep_group (ds : List RawDiscussion) :
    ∀ acc : List (String × RawDiscussion),
      (acc.map Prod.fst).Nodup → "" ∉ acc.map Prod.fst →
      (ds.foldl mergeStep acc).map Prod.snd =
        acc.map (fun p =>
          (ds.filter (fun x => normTopic x.topic = p.1)).foldl mergeInto p.2) ++
        mergeSpecList (ds.filter (fun x => normTopic x.topic ∉ acc.map Prod.fst)) := by
  induction ds with
  | nil =>
    intro acc _ _
    simp [mergeSpecList_nil]
  | cons d ds ih =>
    intro acc hnodup hns
    rw [List.foldl_cons]
    by_cases ht : normTopic d.topic = ""
    · rw [mergeStep_skip _ _ ht, ih acc hnodup hns]
      congr 1
      · apply List.map_congr_left
        intro p hp
        have hp1 : p.1 ≠ "" := fun hh => hns (hh ▸ List.mem_map_of_mem Prod.fst hp)
        have hpne : ¬ (normTopic d.topic = p.1) := fun hc => hp1 (by rw [← hc, ht])
        rw [List.filter_cons_of_neg (by simpa using hpne)]
      · rw [List.filter_cons_of_pos (by simp only [ht, decide_eq_true_eq]; exact hns),
          mergeSpecList_cons_skip _ _ ht]
    · by_cases hmem : normTopic d.topic ∈ acc.map Prod.fst
      · obtain ⟨v, hv⟩ : ∃ v, assocFind (normTopic d.topic) acc = some v := by
          cases hfind : assocFind (normTopic d.topic) acc with
          | none => exact absurd hmem ((assocFind_eq_none_iff _ _).mp hfind)
          | some v => exact ⟨v, rfl⟩
        rw [mergeStep_update _ _ v ht hv,
          ih _ (by rw [assocUpdate_keys]; exact hnodup)
            (by rw [assocUpdate_keys]; exact hns),
          assocUpdate_keys]
        congr 1
        · rw [assocUpdate_eq_map _ _ _ hnodup, List.map_map]
          apply List.map_congr_left
          intro p hp
          by_cases hpt : p.1 = normTopic d.topic
          · simp only [Function.comp_apply, if_pos hpt]
            rw [List.filter_cons_of_pos (by simpa using hpt.symm), List.foldl_cons]
          · simp only [Function.comp_apply, if_neg hpt]
            rw [List.filter_cons_of_neg (by simpa using fun h => hpt h.symm)]
        · rw [List.filter_cons_of_neg (by simpa using hmem)]
      · have hfind : assocFind (normTopic d.topic) acc = none :=
          (assocFind_eq_none_iff _ _).mpr hmem
        have hkeys : ((acc ++ [(normTopic d.topic, seedDiscussion d)]).map Prod.fst) =
            acc.map Prod.fst ++ [normTopic d.topic] := by
          rw [List.map_append, List.map_singleton]
        have hnodup2 : ((acc ++ [(normTopic d.topic, seedDiscussion d)]).map
            Prod.fst).Nodup := by
          rw [hkeys]
          refine List.Nodup.append hnodup (List.nodup_singleton _) ?_
          intro a ha hb
          rw [List.mem_singleton] at hb
          exact hmem (hb ▸ ha)
        have hns2 : "" ∉ ((acc ++ [(normTopic d.topic, seedDiscussion d)]).map
            Prod.fst) := by
          rw [hkeys, List.mem_append, List.mem_singleton]
          rintro (h | h)
          · exact hns h
          · exact ht h.symm
        rw [mergeStep_fresh _ _ ht hfind, ih _ hnodup2 hns2, hkeys, List.map_append,
          List.map_singleton]
        rw [List.filter_cons_of_pos (by simpa using hmem), mergeSpecList_cons _ _ ht]
        rw [List.filter_filter, List.filter_filter]
        have hf1 : ds.filter (fun x =>
              decide (normTopic x.topic = normTopic d.topic) &&
              decide (normTopic x.topic ∉ acc.map Prod.fst)) =
            ds.filter (fun x => normTopic x.topic = normTopic d.topic) := by
          apply List.filter_congr
          intro x _
          by_cases hx : normTopic x.topic = normTopic d.topic
          · simp [hx, hmem]
          · simp [hx]
        have hf2 : ds.filter (fun x =>
              decide (¬ normTopic x.topic = normTopic d.topic) &&
              decide (normTopic x.topic ∉ acc.map Prod.fst)) =
            ds.filter (fun x =>
              normTopic x.topic ∉ acc.map Prod.fst ++ [normTopic d.topic]) := by
          apply List.filter_congr
          intro x _
          simp only [List.mem_append, List.mem_singleton]
          by_cases h1 : normTopic x.topic = normTopic d.topic
          · simp [h1]
          · by_cases h2 : normTopic x.topic ∈ acc.map Prod.fst
            · simp [h1, h2]
            · simp [h1, h2]
        rw [hf1, hf2]
        have hmapacc : acc.map (fun p =>
              (ds.filter (fun x => normTopic x.topic = p.1)).foldl mergeInto p.2) =
            acc.map (fun p =>
              ((d :: ds).filter (fun x => normTopic x.topic = p.1)).foldl
                mergeInto p.2) := by
          apply List.map_congr_left
          intro p hp
          have hpne : ¬ (normTopic d.topic = p.1) := by
            intro hc
            exact hmem (hc ▸ List.mem_map_of_mem Prod.fst hp)
          rw [List.filter_cons_of_neg (by simpa using hpne)]
        rw [hmapacc, List.append_assoc, List.singleton_append]

/-- Theorem: `AnalyzerService._merge_discussions` computes exactly the grouped
description `mergeSpecList`. -/
theorem mergeDiscussions_eq_spec (ds : List RawDiscussion) :
    mergeDiscussions ds = mergeSpecList ds := by
  unfold mergeDiscussions
  rw [foldl_mergeStep_group ds [] (by simp) (by simp)]
  simp only [List.map_nil, List.nil_append]
  congr 1
  rw [List.filter_eq_self]
  intro x _
  simp

/-- A record with six distinct keywords, used as the C3 counterexample
input. -/
def dSix : RawDiscussion :=
  { topic := "t", keywords := ["k1", "k2", "k3", "k4", "k5", "k6"] }

/-- C3 counterexample: seeding a key caps the keywords to the FIRST
five unique keywords in order of appearance (`list(dict.fromkeys(…))[:5]`),
not to the five most recent — on six distinct keywords the merged entry
keeps `k1…k5`, whereas the five most-recent-unique keywords would be
`k2…k6`. -/
theorem merge_seed_keywords_counterexample :
    (mergeDiscussions [dSix]).map (fun d => d.keywords) =
        [["k1", "k2", "k3", "k4", "k5"]] ∧
    (["k1", "k2", "k3", "k4", "k5"] : List String) ≠
        ["k2", "k3", "k4", "k5", "k6"] :=
  ⟨by decide, by decide⟩

/-- C3 (amended): `_merge_discussions` keys records by the
trimmed-lowercased topic and drops empty keys; the first record seen
for a key seeds the merged entry with keywords deduplicated
(first occurrence wins) and capped to the FIRST five unique keywords —
not the five most recent — and participants/message links
deduplicated; each subsequent same-key record is merged in arrival
order: keyword union capped to 5, participant union, message-link
union, `complexity = max`, and `summary`/`expert_comment`/
`practical_value` replaced exactly when the incoming practical value is
strictly higher; `sentiment` (and the topic as given) keep the
first-seen value.  The whole function equals the grouped spec-side
description `mergeSpecList`. -/
theorem merge_algorithm :
    (∀ ds : List RawDiscussion, mergeDiscussions ds = mergeSpecList ds) ∧
    (∀ d : RawDiscussion, seedDiscussion d =
      { d with keywords := (dictFromKeys d.keywords).take 5
               participants := dictFromKeys d.participants
               message_links := dictFromKeys d.message_links }) ∧
    (∀ dst src : RawDiscussion,
      (mergeInto dst src).topic = dst.topic ∧
      (mergeInto dst src).keywords =
        (dictFromKeys (dst.keywords ++ src.keywords)).take 5 ∧
      (mergeInto dst src).participants =
        dictFromKeys (dst.participants ++ src.participants) ∧
      (mergeInto dst src).message_links =
        dictFromKeys (dst.message_links ++ src.message_links) ∧
      (mergeInto dst src).complexity = max dst.complexity src.complexity ∧
      (mergeInto dst src).sentiment = dst.sentiment ∧
      ((mergeInto dst src).summary, (mergeInto dst src).expert_comment,
        (mergeInto dst src).practical_value) =
        (if dst.practical_value < src.practical_value then
          (src.summary, src.expert_comment, src.practical_value)
        else (dst.summary, dst.expert_comment, dst.practical_value))) ∧
    (∀ s : String, normTopic s = pyLower (pyStrip s)) := by
  refine ⟨mergeDiscussions_eq_spec, fun d => rfl, fun dst src => ?_, fun s => rfl⟩
  refine ⟨rfl, rfl, rfl, rfl, rfl, rfl, ?_⟩
  by_cases h : dst.practical_value < src.practical_value
  · simp [mergeInto, h]
  · simp [mergeInto, h]

/-! ## Lemmas about the orchestrator -/

/-- Whether a trace event is a pacing sleep. -/
def TraceEvent.isSleep : TraceEvent → Bool
  | .sleepPause _ => true
  | _ => false

/-- Whether a trace event is a completion call. -/
def TraceEvent.isCompleteCall : TraceEvent → Bool
  | .completeCall _ => true
  | _ => false

/-- The trace carried by a path result. -/
def pathTrace : PathResult → List TraceEvent
  | .error (_, tr) => tr
  | .ok (_, _, _, _, tr) => tr

theorem runBatches_ok_trace (env : AnalyzeEnv) (t u d : String) :
    ∀ (chunks : List (List Message)) (idx : Nat) (acc acc2 : BatchAcc),
      runBatches env t u d chunks idx acc = .ok acc2 →
      acc2.trace = acc.trace ++
        (List.range chunks.length).map (fun k => TraceEvent.completeCall (idx + k)) := by
  intro chunks
  induction chunks with
  | nil =>
    intro idx acc acc2 h
    simp only [runBatches, Except.ok.injEq] at h
    subst h
    simp
  | cons chunk rest ih =>
    intro idx acc acc2 h
    rw [runBatches] at h
    cases hoc : env.completeCall idx (env.buildPrompt t u d chunk) with
    | failure e => rw [hoc] at h; exact absurd h (by simp)
    | ok content tokens model =>
      rw [hoc] at h
      have h2 := ih (idx + 1) _ acc2 h
      dsimp only at h2
      rw [h2, List.append_assoc, List.singleton_append, List.length_cons,
        List.range_succ_eq_map, List.map_cons, List.map_map]
      congr 1
      congr 1
      apply List.map_congr_left
      intro k _
      simp only [Function.comp_apply]
      congr 1
      omega

theorem runBatches_error_trace (env : AnalyzeEnv) (t u d : String) :
    ∀ (chunks : List (List Message)) (idx : Nat) (acc : BatchAcc)
      (e : ClientError) (tr : List TraceEvent),
      runBatches env t u d chunks idx acc = .error (e, tr) →
      ∃ tail, tr = acc.trace ++ tail ∧
        ∀ ev ∈ tail, ∃ j, ev = TraceEvent.completeCall j := by
  intro chunks
  induction chunks with
  | nil => intro idx acc e tr h; exact absurd h (by simp [runBatches])
  | cons chunk rest ih =>
    intro idx acc e tr h
    rw [runBatches] at h
    cases hoc : env.completeCall idx (env.buildPrompt t u d chunk) with
    | failure e2 =>
      rw [hoc] at h
      simp only [Except.error.injEq, Prod.mk.injEq] at h
      refine ⟨[TraceEvent.completeCall idx], h.2.symm, ?_⟩
      intro ev hev
      rw [List.mem_singleton] at hev
      exact ⟨idx, hev⟩
    | ok content tokens model =>
      rw [hoc] at h
      obtain ⟨tail, htr, hev⟩ := ih (idx + 1) _ e tr h
      dsimp only at htr
      refine ⟨TraceEvent.completeCall idx :: tail, ?_, ?_⟩
      · rw [htr, List.append_assoc, List.singleton_append]
      · intro ev hmem
        rcases List.mem_cons.mp hmem with rfl | hmem
        · exact ⟨idx, rfl⟩
        · exact hev ev hmem

theorem finishAnalyze_ok (env : AnalyzeEnv) (store : AnalysisStore)
    (chat date u : String) (msgs : List Message) (pr : PathResult)
    (res : AnalysisResult × AnalysisMetadata)
    (h : (finishAnalyze env store chat date u msgs pr).outcome = .ok res) :
    (finishAnalyze env store chat date u msgs pr).store =
      storeSave store chat date res ∧
    res.2.total_messages = msgs.length ∧
    res.2.analyzed_messages = msgs.length := by
  cases pr with
  | error p =>
    obtain ⟨e, tr⟩ := p
    simp [finishAnalyze] at h
  | ok tup =>
    obtain ⟨result0, tokens, latency, lastModel, tr⟩ := tup
    cases lastModel with
    | none => simp [finishAnalyze] at h
    | some model =>
      simp only [finishAnalyze, Except.ok.injEq] at h
      subst h
      exact ⟨rfl, rfl, rfl⟩

theorem finishAnalyze_trace (env : AnalyzeEnv) (store : AnalysisStore)
    (chat date u : String) (msgs : List Message) (pr : PathResult) :
    ∃ extra, (finishAnalyze env store chat date u msgs pr).trace =
      pathTrace pr ++ extra ∧
      ∀ e ∈ extra, e.isSleep = false ∧ e.isCompleteCall = false := by
  cases pr with
  | error p =>
    obtain ⟨e, tr⟩ := p
    exact ⟨[], by simp [finishAnalyze, pathTrace], by simp⟩
  | ok tup =>
    obtain ⟨result0, tokens, latency, lastModel, tr⟩ := tup
    by_cases hv : env.validateLinksEnabled
    · cases lastModel with
      | none =>
        refine ⟨[TraceEvent.validateCall
            (validateLinks (result0.discussions.map enrichDiscussion) u
              (msgs.map (fun m => m.id))).length],
          by simp [finishAnalyze, pathTrace, hv], ?_⟩
        intro e he
        rw [List.mem_singleton] at he
        subst he
        exact ⟨rfl, rfl⟩
      | some model =>
        refine ⟨[TraceEvent.validateCall
            (validateLinks (result0.discussions.map enrichDiscussion) u
              (msgs.map (fun m => m.id))).length, TraceEvent.saveCall chat date],
          by simp [finishAnalyze, pathTrace, hv], ?_⟩
        intro e he
        rcases List.mem_cons.mp he with rfl | he
        · exact ⟨rfl, rfl⟩
        · rw [List.mem_singleton] at he
          subst he
          exact ⟨rfl, rfl⟩
    · cases lastModel with
      | none =>
        exact ⟨[], by simp [finishAnalyze, pathTrace, hv], by simp⟩
      | some model =>
        refine ⟨[TraceEvent.saveCall chat date],
          by simp [finishAnalyze, pathTrace, hv], ?_⟩
        intro e he
        rw [List.mem_singleton] at he
        subst he
        exact ⟨rfl, rfl⟩

theorem analyze_short_circuit (env : AnalyzeEnv) (store : AnalysisStore)
    (chat date : String) (ws : Nat) (bs : Option Nat)
    (ex : AnalysisResult × AnalysisMetadata)
    (h : storeFind store chat date = some ex) :
    analyze env store chat date ws false bs = ⟨.ok ex, store, []⟩ := by
  unfold analyze
  rw [h]
  simp

theorem analyze_run (env : AnalyzeEnv) (store : AnalysisStore) (chat date : String)
    (ws : Nat) (force : Bool) (bs : Option Nat)
    (h : storeFind store chat date = none ∨ force = true) :
    analyze env store chat date ws force bs =
      analyzeCore env store chat date ws bs := by
  unfold analyze
  rcases h with h | h
  · rw [h]
  · subst h
    cases hfind : storeFind store chat date <;> simp

theorem analyzeCore_load_none (env : AnalyzeEnv) (store : AnalysisStore)
    (chat date : String) (ws : Nat) (bs : Option Nat)
    (h : env.loadMessages chat date = none) :
    analyzeCore env store chat date ws bs = ⟨.error .dataNotFound, store, []⟩ := by
  unfold analyzeCore
  rw [h]

theorem analyzeCore_load_some (env : AnalyzeEnv) (store : AnalysisStore)
    (chat date : String) (ws : Nat) (bs : Option Nat) (dump : MessageDump)
    (hload : env.loadMessages chat date = some dump) :
    analyzeCore env store chat date ws bs =
      finishAnalyze env store chat date (pyLstripAt dump.source_info.id)
        dump.messages
        (selectPath env dump.source_info.title (pyLstripAt dump.source_info.id)
          date dump.messages ws bs) := by
  unfold analyzeCore
  rw [hload]

theorem selectPath_batch (env : AnalyzeEnv) (title u date : String)
    (messages : List Message) (ws bs : Nat) (hbs : bs ≠ 0) :
    selectPath env title u date messages ws (some bs) =
      runBatchPath env title u date messages bs := by
  unfold selectPath
  simp [hbs]

theorem selectPath_legacy (env : AnalyzeEnv) (title u date : String)
    (messages : List Message) (ws : Nat) (bs : Option Nat)
    (hbs : bs = none ∨ bs = some 0) :
    selectPath env title u date messages ws bs =
      runLegacy env title u date messages ws := by
  unfold selectPath
  rcases hbs with rfl | rfl <;> simp

theorem storeFind_save (store : AnalysisStore) (chat date : String)
    (v : AnalysisResult × AnalysisMetadata) :
    storeFind (storeSave store chat date v) chat date = some v := by
  unfold storeFind storeSave
  rw [List.find?_cons_of_pos _ (by simp)]

theorem runBatchPath_trace_mem (env : AnalyzeEnv) (t u d : String)
    (messages : List Message) (bs : Nat) :
    ∀ e ∈ pathTrace (runBatchPath env t u d messages bs),
      e.isSleep = false := by
  intro e he
  unfold runBatchPath at he
  dsimp only at he
  cases hrb : runBatches env t u d (pythonChunks bs messages) 1 ⟨[], 0, 0, none, []⟩ with
  | error p =>
    obtain ⟨e2, tr⟩ := p
    rw [hrb] at he
    obtain ⟨tail, htr, hev⟩ :=
      runBatches_error_trace env t u d (pythonChunks bs messages) 1 _ e2 tr hrb
    simp only [pathTrace] at he
    rw [htr] at he
    simp only [List.nil_append] at he
    obtain ⟨j, rfl⟩ := hev e he
    rfl
  | ok acc =>
    rw [hrb] at he
    dsimp only at he
    have htr := runBatches_ok_trace env t u d (pythonChunks bs messages) 1 _ acc hrb
    simp only [List.nil_append] at htr
    have hfin : ∀ e2 ∈ acc.trace ++
        [TraceEvent.mergeCall acc.all_discussions.length], e2.isSleep = false := by
      intro e2 he2
      rw [htr] at he2
      rcases List.mem_append.mp he2 with he2 | he2
      · obtain ⟨k, _, rfl⟩ := List.mem_map.mp he2
        rfl
      · rw [List.mem_singleton] at he2
        subst he2
        rfl
    cases hb : buildAnalysisResult? (mergeDiscussions acc.all_discussions) with
    | none =>
      rw [hb] at he
      simp only [pathTrace] at he
      exact hfin e he
    | some result0 =>
      rw [hb] at he
      simp only [pathTrace] at he
      exact hfin e he

theorem runLegacy_trace_mem (env : AnalyzeEnv) (t u d : String)
    (messages : List Message) (ws : Nat) :
    ∀ e ∈ pathTrace (runLegacy env t u d messages ws), e.isSleep = false := by
  intro e he
  unfold runLegacy at he
  dsimp only at he
  cases hoc : env.completeCall 1 (env.buildPrompt t u d (messages.take ws)) with
  | failure e2 =>
    rw [hoc] at he
    simp only [pathTrace, List.mem_singleton] at he
    subst he
    rfl
  | ok content tokens model =>
    rw [hoc] at he
    dsimp only at he
    cases hj : env.jsonLoads (extractJsonBlock content) with
    | none =>
      rw [hj] at he
      simp only [pathTrace, List.mem_singleton] at he
      subst he
      rfl
    | some reply =>
      rw [hj] at he
      dsimp only at he
      cases hd : reply.discussionsField with
      | none =>
        rw [hd] at he
        simp only [pathTrace, List.mem_singleton] at he
        subst he
        rfl
      | some l =>
        rw [hd] at he
        dsimp only at he
        cases hb : buildAnalysisResult? l with
        | none =>
          rw [hb] at he
          simp only [pathTrace, List.mem_singleton] at he
          subst he
          rfl
        | some result0 =>
          rw [hb] at he
          simp only [pathTrace, List.mem_singleton] at he
          subst he
          rfl

theorem selectPath_trace_mem (env : AnalyzeEnv) (t u d : String)
    (messages : List Message) (ws : Nat) (bs : Option Nat) :
    ∀ e ∈ pathTrace (selectPath env t u d messages ws bs), e.isSleep = false := by
  intro e he
  cases bs with
  | none =>
    rw [selectPath_legacy env t u d messages ws none (Or.inl rfl)] at he
    exact runLegacy_trace_mem env t u d messages ws e he
  | some b =>
    by_cases hb : b = 0
    · subst hb
      rw [selectPath_legacy env t u d messages ws (some 0) (Or.inr rfl)] at he
      exact runLegacy_trace_mem env t u d messages ws e he
    · rw [selectPath_batch env t u d messages ws b hb] at he
      exact runBatchPath_trace_mem env t u d messages b e he

theorem analyzeCore_trace_mem (env : AnalyzeEnv) (store : AnalysisStore)
    (chat date : String) (ws : Nat) (bs : Option Nat) :
    ∀ e ∈ (analyzeCore env store chat date ws bs).trace, e.isSleep = false := by
  intro e he
  cases hload : env.loadMessages chat date with
  | none =>
    rw [analyzeCore_load_none env store chat date ws bs hload] at he
    simp at he
  | some dump =>
    rw [analyzeCore_load_some env store chat date ws bs dump hload] at he
    obtain ⟨extra, heq, hext⟩ := finishAnalyze_trace env store chat date
      (pyLstripAt dump.source_info.id) dump.messages
      (selectPath env dump.source_info.title (pyLstripAt dump.source_info.id)
        date dump.messages ws bs)
    rw [heq] at he
    rcases List.mem_append.mp he with he | he
    · exact selectPath_trace_mem env _ _ date dump.messages ws bs e he
    · exact (hext e he).1

theorem analyze_no_sleep (env : AnalyzeEnv) (store : AnalysisStore)
    (chat date : String) (ws : Nat) (force : Bool) (bs : Option Nat) :
    (analyze env store chat date ws force bs).trace.filter TraceEvent.isSleep = [] := by
  rw [List.filter_eq_nil_iff]
  intro e he
  suffices h : e.isSleep = false by simp [h]
  cases hforce : force with
  | true =>
    subst hforce
    rw [analyze_run env store chat date ws true bs (Or.inr rfl)] at he
    exact analyzeCore_trace_mem env store chat date ws bs e he
  | false =>
    subst hforce
    cases hfind : storeFind store chat date with
    | some ex =>
      rw [analyze_short_circuit env store chat date ws bs ex hfind] at he
      simp at he
    | none =>
      rw [analyze_run env store chat date ws false bs (Or.inl hfind)] at he
      exact analyzeCore_trace_mem env store chat date ws bs e he

theorem analyze_batch_call_count (env : AnalyzeEnv) (store : AnalysisStore)
    (chat date : String) (ws bs : Nat) (dump : MessageDump)
    (res : AnalysisResult × AnalysisMetadata)
    (hfind : storeFind store chat date = none)
    (hload : env.loadMessages chat date = some dump)
    (hbs : bs ≠ 0)
    (hout : (analyze env store chat date ws false (some bs)).outcome = .ok res) :
    ((analyze env store chat date ws false (some bs)).trace.filter
      TraceEvent.isCompleteCall).length = (pythonChunks bs dump.messages).length := by
  rw [analyze_run env store chat date ws false (some bs) (Or.inl hfind),
    analyzeCore_load_some env store chat date ws (some bs) dump hload,
    selectPath_batch env _ _ date dump.messages ws bs hbs] at hout ⊢
  unfold runBatchPath at hout ⊢
  dsimp only at hout ⊢
  cases hrb : runBatches env dump.source_info.title (pyLstripAt dump.source_info.id)
      date (pythonChunks bs dump.messages) 1 ⟨[], 0, 0, none, []⟩ with
  | error p =>
    obtain ⟨e2, tr⟩ := p
    rw [hrb] at hout
    simp [finishAnalyze] at hout
  | ok acc =>
    rw [hrb] at hout
    dsimp only at hout ⊢
    cases hb : buildAnalysisResult? (mergeDiscussions acc.all_discussions) with
    | none =>
      rw [hb] at hout
      simp [finishAnalyze] at hout
    | some result0 =>
      rw [hb] at hout
      obtain ⟨extra, heq, hext⟩ := finishAnalyze_trace env store chat date
        (pyLstripAt dump.source_info.id) dump.messages _
      rw [heq]
      simp only [pathTrace]
      have htr := runBatches_ok_trace env dump.source_info.title
        (pyLstripAt dump.source_info.id) date (pythonChunks bs dump.messages) 1 _ acc hrb
      simp only [List.nil_append] at htr
      rw [htr, List.filter_append, List.filter_append]
      have h1 : ((List.range (pythonChunks bs dump.messages).length).map
          (fun k => TraceEvent.completeCall (1 + k))).filter TraceEvent.isCompleteCall =
          (List.range (pythonChunks bs dump.messages).length).map
            (fun k => TraceEvent.completeCall (1 + k)) := by
        rw [List.filter_eq_self]
        intro e hmem
        obtain ⟨k, _, rfl⟩ := List.mem_map.mp hmem
        rfl
      have h3 : extra.filter TraceEvent.isCompleteCall = [] := by
        rw [List.filter_eq_nil_iff]
        intro e hmem
        simp [(hext e hmem).2]
      rw [h1, h3]
      simp [TraceEvent.isCompleteCall]

/-- The raw discussions one batch contributes to the run: the parsed
`"discussions"` of the reply when `json.loads` succeeds, `[]` when the
reply fails parsing (the `try/except` of `analyzer_service.py:178-186`)
or the call failed. -/
def batchDiscussionsOf (env : AnalyzeEnv) (title chat_username date : String)
    (idx : Nat) (chunk : List Message) : List RawDiscussion :=
  match env.completeCall idx (env.buildPrompt title chat_username date chunk) with
  | .ok content _ _ =>
    match env.jsonLoads (extractJsonBlock content) with
    | some reply => reply.discussionsField.getD []
    | none => []
  | .failure _ => []

theorem runBatches_all_ok (env : AnalyzeEnv) (t u d : String)
    (hok : ∀ i s, (env.completeCall i s).isOk = true) :
    ∀ (chunks : List (List Message)) (idx : Nat) (acc : BatchAcc),
      ∃ acc2, runBatches env t u d chunks idx acc = .ok acc2 ∧
        acc2.all_discussions = acc.all_discussions ++
          ((List.enumFrom idx chunks).map
            (fun p => batchDiscussionsOf env t u d p.1 p.2)).flatten ∧
        (chunks = [] → acc2 = acc) ∧
        (chunks ≠ [] → acc2.lastModel.isSome = true) := by
  intro chunks
  induction chunks with
  | nil =>
    intro idx acc
    exact ⟨acc, rfl, by simp [List.enumFrom], fun _ => rfl, fun h => absurd rfl h⟩
  | cons chunk rest ih =>
    intro idx acc
    cases hoc : env.completeCall idx (env.buildPrompt t u d chunk) with
    | failure e =>
      have hok2 := hok idx (env.buildPrompt t u d chunk)
      rw [hoc] at hok2
      exact absurd hok2 (by simp [CompletionOutcome.isOk])
    | ok content tokens model =>
      obtain ⟨acc2, hrun, hdisc, hnil, hne⟩ := ih (idx + 1)
        { all_discussions := acc.all_discussions ++
            (match env.jsonLoads (extractJsonBlock content) with
             | some reply => reply.discussionsField.getD []
             | none => [])
          total_tokens := acc.total_tokens + tokens
          total_latency := acc.total_latency + env.latencyOf idx
          lastModel := some model
          trace := acc.trace ++ [TraceEvent.completeCall idx] }
      refine ⟨acc2, ?_, ?_, ?_, ?_⟩
      · rw [runBatches, hoc]
        exact hrun
      · rw [hdisc]
        dsimp only
        rw [show List.enumFrom idx (chunk :: rest) =
            (idx, chunk) :: List.enumFrom (idx + 1) rest from rfl,
          List.map_cons, List.flatten_cons, ← List.append_assoc]
        congr 2
        rw [batchDiscussionsOf, hoc]
      · intro h
        exact absurd h (by simp)
      · intro _
        rcases Decidable.em (rest = []) with hr | hr
        · rw [hnil hr]
          rfl
        · exact hne hr

theorem analyze_batch_all_ok (env : AnalyzeEnv) (store : AnalysisStore)
    (chat date : String) (ws bs : Nat) (dump : MessageDump)
    (hok : ∀ i s, (env.completeCall i s).isOk = true)
    (hfind : storeFind store chat date = none)
    (hload : env.loadMessages chat date = some dump)
    (hbs : bs ≠ 0) (hne : dump.messages ≠ [])
    (hv : ∀ r ∈ ((List.enumFrom 1 (pythonChunks bs dump.messages)).map
        (fun p => batchDiscussionsOf env dump.source_info.title
          (pyLstripAt dump.source_info.id) date p.1 p.2)).flatten,
      pydValidB r = true) :
    ∃ res : AnalysisResult × AnalysisMetadata,
      (analyze env store chat date ws false (some bs)).outcome = .ok res ∧
      res.1.discussions =
        (mergeDiscussions ((List.enumFrom 1 (pythonChunks bs dump.messages)).map
          (fun p => batchDiscussionsOf env dump.source_info.title
            (pyLstripAt dump.source_info.id) date p.1 p.2)).flatten).map
          (fun r => enrichDiscussion (rawToDiscussion r)) ∧
      res.2.analyzed_messages = dump.messages.length ∧
      res.2.total_messages = dump.messages.length := by
  rw [analyze_run env store chat date ws false (some bs) (Or.inl hfind),
    analyzeCore_load_some env store chat date ws (some bs) dump hload,
    selectPath_batch env _ _ date dump.messages ws bs hbs]
  unfold runBatchPath
  dsimp only
  obtain ⟨acc2, hrun, hdisc, _, hlm⟩ := runBatches_all_ok env dump.source_info.title
    (pyLstripAt dump.source_info.id) date hok (pythonChunks bs dump.messages) 1
    ⟨[], 0, 0, none, []⟩
  rw [hrun]
  dsimp only
  simp only [List.nil_append] at hdisc
  have hbuild : buildAnalysisResult? (mergeDiscussions acc2.all_discussions) =
      some ⟨(mergeDiscussions acc2.all_discussions).map rawToDiscussion⟩ := by
    unfold buildAnalysisResult?
    rw [if_pos]
    rw [List.all_eq_true]
    intro r hr
    exact mergeDiscussions_valid acc2.all_discussions
      (by rw [hdisc]; exact hv) r hr
  rw [hbuild]
  have hchunks : pythonChunks bs dump.messages ≠ [] := by
    rw [pythonChunks_cons bs (Nat.pos_of_ne_zero hbs) _ hne]
    simp
  obtain ⟨model, hmodel⟩ := Option.isSome_iff_exists.mp (hlm hchunks)
  rw [hmodel]
  refine ⟨_, rfl, ?_, rfl, rfl⟩
  dsimp only
  rw [hdisc]
  simp [List.map_map]

/-! ## Concrete runs used by witnesses and counterexamples -/

/-- A minimal stored metadata record. -/
def md0 : AnalysisMetadata :=
  { chat := "c", chat_username := "c", date := "d", analyzed_at := 0,
    total_messages := 0, analyzed_messages := 0, tokens_used := 0,
    model := "m", latency_seconds := 0, discussion_stats := none }

/-- A stored analysis entry. -/
def r0 : AnalysisResult × AnalysisMetadata := (⟨[]⟩, md0)

/-- A store already holding a result for `("c", "d")`. -/
def store0 : AnalysisStore := [(("c", "d"), r0)]

/-- A two-message transcript. -/
def dumpTwo : MessageDump := ⟨⟨"@c", "C"⟩, [{ id := 1 }, { id := 2 }]⟩

/-- An environment whose completion calls all succeed with an empty
discussion list. -/
def envTwo : AnalyzeEnv :=
  { loadMessages := fun _ _ => some dumpTwo
    buildPrompt := fun _ _ _ _ => ""
    completeCall := fun _ _ => .ok "[]" 1 "m"
    jsonLoads := fun _ => some ⟨some []⟩
    latencyOf := fun _ => 0
    now := 0
    validateLinksEnabled := false }

/-- Like `envTwo`, but the first completion call raises an auth
error. -/
def envFail : AnalyzeEnv :=
  { envTwo with
    completeCall := fun i _ =>
      if i = 1 then .failure .authError else .ok "[]" 1 "m" }

/-- A 250-message transcript (ids 1..250). -/
def msg250 : List Message := (List.range 250).map (fun i => { id := ((i : Int) + 1) })

/-- The dump for the 250-message scenario. -/
def dump250 : MessageDump := ⟨⟨"@ru_python", "Python"⟩, msg250⟩

/-- A discussion found by batch 1 of the scenario. -/
def rd1 : RawDiscussion := { topic := "t1" }

/-- A discussion found by batch 3 of the scenario. -/
def rd3 : RawDiscussion := { topic := "t3" }

/-- The claim C7 scenario environment: 250 messages, three batches at
`batchSize = 100`; batch 2's model reply fails JSON parsing, batches 1
and 3 each yield one discussion. -/
def env250 : AnalyzeEnv :=
  { loadMessages := fun _ _ => some dump250
    buildPrompt := fun _ _ _ _ => ""
    completeCall := fun i _ =>
      if i = 1 then .ok "ONE" 10 "m"
      else if i = 2 then .ok "TWO" 10 "m"
      else .ok "THREE" 10 "m"
    jsonLoads := fun s =>
      if s = "ONE" then some ⟨some [rd1]⟩
      else if s = "THREE" then some ⟨some [rd3]⟩
      else none
    latencyOf := fun _ => 0
    now := 0
    validateLinksEnabled := false }

/-! ## Claim C1 -/

/-- C1: when a stored result exists for `(source, day)` and
`force = false`, `analyze` returns it unchanged with an empty effect
trace — no completion call, no merge, no save — and an unchanged
store; and calling `analyze(source, day, force=false)` twice without
underlying data change returns the identical result both times, the
second call short-circuiting with an empty trace (no second completion
call). -/
theorem analyze_idempotent_short_circuit :
    (∀ (env : AnalyzeEnv) (store : AnalysisStore) (chat date : String) (ws : Nat)
        (bs : Option Nat) (ex : AnalysisResult × AnalysisMetadata),
      storeFind store chat date = some ex →
      analyze env store chat date ws false bs = ⟨.ok ex, store, []⟩) ∧
    (∀ (env : AnalyzeEnv) (store store2 : AnalysisStore) (chat date : String)
        (ws : Nat) (bs : Option Nat) (res : AnalysisResult × AnalysisMetadata)
        (tr : List TraceEvent),
      analyze env store chat date ws false bs = ⟨.ok res, store2, tr⟩ →
      analyze env store2 chat date ws false bs = ⟨.ok res, store2, []⟩) := by
  constructor
  · intro env store chat date ws bs ex h
    exact analyze_short_circuit env store chat date ws bs ex h
  · intro env store store2 chat date ws bs res tr h
    cases hfind : storeFind store chat date with
    | some ex =>
      rw [analyze_short_circuit env store chat date ws bs ex hfind] at h
      simp only [AnalyzeOutput.mk.injEq, Except.ok.injEq] at h
      obtain ⟨rfl, rfl, rfl⟩ := h
      exact analyze_short_circuit env store chat date ws bs ex hfind
    | none =>
      rw [analyze_run env store chat date ws false bs (Or.inl hfind)] at h
      cases hload : env.loadMessages chat date with
      | none =>
        rw [analyzeCore_load_none env store chat date ws bs hload] at h
        simp only [AnalyzeOutput.mk.injEq] at h
        exact absurd h.1 (by simp)
      | some dump =>
        rw [analyzeCore_load_some env store chat date ws bs dump hload] at h
        have hout : (finishAnalyze env store chat date
            (pyLstripAt dump.source_info.id) dump.messages
            (selectPath env dump.source_info.title (pyLstripAt dump.source_info.id)
              date dump.messages ws bs)).outcome = .ok res := by rw [h]
        have hsave := (finishAnalyze_ok env store chat date _ _ _ res hout).1
        have hstore : store2 = storeSave store chat date res := by
          have h2 : (finishAnalyze env store chat date
              (pyLstripAt dump.source_info.id) dump.messages
              (selectPath env dump.source_info.title (pyLstripAt dump.source_info.id)
                date dump.messages ws bs)).store = store2 := by rw [h]
          rw [← h2, hsave]
        subst hstore
        exact analyze_short_circuit env _ chat date ws bs res
          (storeFind_save store chat date res)

/-- Witness for C1 at a store already holding a result. -/
theorem analyze_idempotent_short_circuit_witness :
    storeFind store0 "c" "d" = some r0 ∧
    analyze envTwo store0 "c" "d" 30 false (some 100) = ⟨.ok r0, store0, []⟩ :=
  ⟨rfl, analyze_idempotent_short_circuit.1 envTwo store0 "c" "d" 30 (some 100) r0 rfl⟩

/-! ## Claim C10 -/

/-- C10: every run of `analyze` that reaches the save step (no
short-circuit, transcript loaded, result returned) produces metadata
with `analyzedMessages == totalMessages ==` the loaded transcript
length — in both the multi-batch and the legacy single-window path,
even though the legacy path submits only the first `windowSize`
messages to the model (`runLegacy` builds its prompt over
`messages.take window_size`). -/
theorem metadata_counts :
    ∀ (env : AnalyzeEnv) (store : AnalysisStore) (chat date : String) (ws : Nat)
      (force : Bool) (bs : Option Nat) (dump : MessageDump)
      (res : AnalysisResult × AnalysisMetadata),
      (storeFind store chat date = none ∨ force = true) →
      env.loadMessages chat date = some dump →
      (analyze env store chat date ws force bs).outcome = .ok res →
      res.2.analyzed_messages = res.2.total_messages ∧
      res.2.total_messages = dump.messages.length := by
  intro env store chat date ws force bs dump res hrun hload hout
  rw [analyze_run env store chat date ws force bs hrun,
    analyzeCore_load_some env store chat date ws bs dump hload] at hout
  obtain ⟨_, h1, h2⟩ := finishAnalyze_ok env store chat date _ _ _ res hout
  exact ⟨by rw [h1, h2], h1⟩

/-- Witness for C10 at a concrete two-message batch run. -/
theorem metadata_counts_witness :
    ((storeFind [] "c" "d" = none ∨ false = true) ∧
      envTwo.loadMessages "c" "d" = some dumpTwo) ∧
    ∃ res : AnalysisResult × AnalysisMetadata,
      (analyze envTwo [] "c" "d" 30 false (some 1)).outcome = .ok res ∧
      res.2.analyzed_messages = res.2.total_messages ∧
      res.2.total_messages = dumpTwo.messages.length := by
  refine ⟨⟨Or.inl rfl, rfl⟩, ?_⟩
  obtain ⟨res, hout, _⟩ := analyze_batch_all_ok envTwo [] "c" "d" 30 1 dumpTwo
    (fun _ _ => rfl) rfl rfl (by decide) (by decide) (by decide)
  exact ⟨res, hout,
    metadata_counts envTwo [] "c" "d" 30 false (some 1) dumpTwo res (Or.inl rfl)
      rfl hout⟩

/-! ## Claim C8 -/

/-- C8 counterexample: a concrete two-batch run makes two consecutive
completion calls and its trace contains no sleep event at all — the
claimed 1-second pacing delay between consecutive completion calls
does not exist in `AnalyzerService.analyze` (the delay exists only in
the separate `scripts/analyze_full_day.py`). -/
theorem no_pacing_counterexample :
    ((analyze envTwo [] "c" "d" 30 false (some 1)).trace.filter
        TraceEvent.isCompleteCall).length = 2 ∧
    (analyze envTwo [] "c" "d" 30 false (some 1)).trace.filter
        TraceEvent.isSleep = [] :=
  ⟨by decide, by decide⟩

/-- C8 (amended): in the multi-batch path exactly one completion call
is made per batch, and NO pacing delay is performed between
consecutive completion calls — no run of `analyze` ever sleeps. -/
theorem one_call_per_batch_no_pacing :
    (∀ (env : AnalyzeEnv) (store : AnalysisStore) (chat date : String) (ws : Nat)
        (force : Bool) (bs : Option Nat),
      (analyze env store chat date ws force bs).trace.filter
        TraceEvent.isSleep = []) ∧
    (∀ (env : AnalyzeEnv) (store : AnalysisStore) (chat date : String)
        (ws bs : Nat) (dump : MessageDump)
        (res : AnalysisResult × AnalysisMetadata),
      storeFind store chat date = none →
      env.loadMessages chat date = some dump →
      bs ≠ 0 →
      (analyze env store chat date ws false (some bs)).outcome = .ok res →
      ((analyze env store chat date ws false (some bs)).trace.filter
        TraceEvent.isCompleteCall).length = (pythonChunks bs dump.messages).length) :=
  ⟨fun env store chat date ws force bs =>
      analyze_no_sleep env store chat date ws force bs,
    fun env store chat date ws bs dump res hf hl hb ho =>
      analyze_batch_call_count env store chat date ws bs dump res hf hl hb ho⟩

/-- Witness for C8 at the concrete two-batch run. -/
theorem one_call_per_batch_no_pacing_witness :
    (storeFind [] "c" "d" = none ∧ envTwo.loadMessages "c" "d" = some dumpTwo ∧
      (1 : Nat) ≠ 0) ∧
    (analyze envTwo [] "c" "d" 30 false (some 1)).trace.filter
      TraceEvent.isSleep = [] ∧
    ((analyze envTwo [] "c" "d" 30 false (some 1)).trace.filter
      TraceEvent.isCompleteCall).length = (pythonChunks 1 dumpTwo.messages).length := by
  refine ⟨⟨rfl, rfl, by decide⟩,
    one_call_per_batch_no_pacing.1 envTwo [] "c" "d" 30 false (some 1), ?_⟩
  obtain ⟨res, hout, _⟩ := analyze_batch_all_ok envTwo [] "c" "d" 30 1 dumpTwo
    (fun _ _ => rfl) rfl rfl (by decide) (by decide) (by decide)
  exact one_call_per_batch_no_pacing.2 envTwo [] "c" "d" 30 1 dumpTwo res rfl rfl
    (by decide) hout

deriving instance DecidableEq for Except

/-! ## Claim C7 -/

/-- C7 counterexample: an auth failure of batch 1's completion call is
NOT caught at the batch loop — the whole run aborts with the client
error instead of degrading to zero discussions for that batch, and the
other batch's discussions are lost (no result is produced at all). -/
theorem batch_client_failure_aborts :
    (analyze envFail [] "c" "d" 30 false (some 1)).outcome =
      .error (.clientError .authError) := by
  decide

set_option maxRecDepth 100000 in
/-- C7 (amended): a malformed model JSON reply in a batch is caught by
the `try/except` around `json.loads` and degrades to zero discussions
for that batch while the run continues — when every completion call
returns normally and every parsed discussion record passes the
pydantic field validation that `AnalysisResult(discussions=...)`
performs (`analyzer_service.py:192`; an out-of-range record aborts the
run with an uncaught `ValidationError` instead), the run succeeds, its
result merges exactly the per-batch discussion lists (a parse-failed
batch contributing `[]`), and `analyzedMessages` equals the full
transcript length; a network or auth failure of a completion call, by
contrast, aborts the run (see the counterexample).  In the claim's
250-message scenario with `batchSize = 100` and batch 2 failing JSON
parsing, the result keeps the discussions of batches 1 and 3 and
`analyzedMessages == 250`. -/
theorem parse_failure_degrades :
    (∀ (env : AnalyzeEnv) (store : AnalysisStore) (chat date : String)
        (ws bs : Nat) (dump : MessageDump),
      (∀ i s, (env.completeCall i s).isOk = true) →
      storeFind store chat date = none →
      env.loadMessages chat date = some dump →
      bs ≠ 0 → dump.messages ≠ [] →
      (∀ r ∈ ((List.enumFrom 1 (pythonChunks bs dump.messages)).map
          (fun p => batchDiscussionsOf env dump.source_info.title
            (pyLstripAt dump.source_info.id) date p.1 p.2)).flatten,
        pydValidB r = true) →
      ∃ res : AnalysisResult × AnalysisMetadata,
        (analyze env store chat date ws false (some bs)).outcome = .ok res ∧
        res.1.discussions =
          (mergeDiscussions ((List.enumFrom 1 (pythonChunks bs dump.messages)).map
            (fun p => batchDiscussionsOf env dump.source_info.title
              (pyLstripAt dump.source_info.id) date p.1 p.2)).flatten).map
            (fun r => enrichDiscussion (rawToDiscussion r)) ∧
        res.2.analyzed_messages = dump.messages.length ∧
        res.2.total_messages = dump.messages.length) ∧
    ((analyze env250 [] "ru_python" "2024-01-01" 30 false (some 100)).outcome.map
      (fun res => (res.1.discussions.map (fun d => d.topic),
        res.2.analyzed_messages, res.2.total_messages))) =
      Except.ok (["t1", "t3"], 250, 250) := by
  refine ⟨fun env store chat date ws bs dump hok hf hl hb hn hv =>
    analyze_batch_all_ok env store chat date ws bs dump hok hf hl hb hn hv, ?_⟩
  decide

set_option maxRecDepth 100000 in
/-- Witness for C7 at the 250-message scenario environment. -/
theorem parse_failure_degrades_witness :
    ((∀ i s, (env250.completeCall i s).isOk = true) ∧
      storeFind [] "ru_python" "2024-01-01" = none ∧
      env250.loadMessages "ru_python" "2024-01-01" = some dump250 ∧
      (100 : Nat) ≠ 0 ∧ dump250.messages ≠ [] ∧
      (∀ r ∈ ((List.enumFrom 1 (pythonChunks 100 dump250.messages)).map
          (fun p => batchDiscussionsOf env250 dump250.source_info.title
            (pyLstripAt dump250.source_info.id) "2024-01-01" p.1 p.2)).flatten,
        pydValidB r = true)) ∧
    ∃ res : AnalysisResult × AnalysisMetadata,
      (analyze env250 [] "ru_python" "2024-01-01" 30 false (some 100)).outcome =
          .ok res ∧
      res.1.discussions =
        (mergeDiscussions ((List.enumFrom 1 (pythonChunks 100 dump250.messages)).map
          (fun p => batchDiscussionsOf env250 dump250.source_info.title
            (pyLstripAt dump250.source_info.id) "2024-01-01" p.1 p.2)).flatten).map
          (fun r => enrichDiscussion (rawToDiscussion r)) ∧
      res.2.analyzed_messages = dump250.messages.length ∧
      res.2.total_messages = dump250.messages.length := by
  have hok : ∀ i s, (env250.completeCall i s).isOk = true := by
    intro i s
    unfold env250
    dsimp only
    by_cases h1 : i = 1
    · simp [h1, CompletionOutcome.isOk]
    · by_cases h2 : i = 2 <;> simp [h1, h2, CompletionOutcome.isOk]
  exact ⟨⟨hok, rfl, rfl, by decide, by decide, by decide⟩,
    parse_failure_degrades.1 env250 [] "ru_python" "2024-01-01" 30 100 dump250 hok
      rfl rfl (by decide) (by decide) (by decide)⟩

end TgAnalyzer
